import Mathlib

/-!
Shallow embedding of the instance-segmentation postprocessing core
(`demos/python_demos/instance_segmentation_demo/instance_segmentation_demo/model_utils.py`)
together with proofs about it.  Floating-point values are modelled as
rationals; numpy arrays become lists or index functions; the external
collaborators `cv2.resize` and `np.exp` are taken as explicit function
parameters of the definitions that use them.
-/

/-- Box with coordinates `(x1, y1, x2, y2)`, the layout of a 4-element box row
`box[0], box[1], box[2], box[3]` in the source. -/
structure Box4 where
  x1 : ℚ
  y1 : ℚ
  x2 : ℚ
  y2 : ℚ
deriving DecidableEq, Inhabited

/-- Embedding of `expand_box`: a fresh box sharing the center of the input whose
half-extents are multiplied by `scale` (the source allocates `box_exp = np.zeros(...)`
and never writes to its argument, so the Lean function model is exact). -/
def expand_box (box : Box4) (scale : ℚ) : Box4 :=
  let w_half := ((box.x2 - box.x1) * (1/2)) * scale
  let h_half := ((box.y2 - box.y1) * (1/2)) * scale
  let x_c := (box.x2 + box.x1) * (1/2)
  let y_c := (box.y2 + box.y1) * (1/2)
  ⟨x_c - w_half, y_c - h_half, x_c + w_half, y_c + h_half⟩

/-- Embedding of `np.clip(v, lo, hi)`: maximum with the lower bound, then minimum
with the upper bound. -/
def npClip (v lo hi : ℚ) : ℚ := min (max v lo) hi

/-- Embedding of `sanitize_coordinates(_x1, _x2, img_size, shift=0, padding=0)`.
`img_size` is a pixel dimension, hence a natural number (every call site passes a
frame dimension or an array extent). -/
def sanitize_coordinates (_x1 _x2 : ℚ) (img_size : ℕ) (shift padding : ℚ) : ℚ × ℚ :=
  let x1s := (_x1 + shift / 2) * (img_size : ℚ)
  let x2s := (_x2 + shift / 2) * (img_size : ℚ)
  (npClip (x1s - padding) 0 (img_size : ℚ), npClip (x2s + padding) 0 (img_size : ℚ))

/-- Conversion `astype(int)` of a float value: truncation toward zero. -/
def ratTrunc (q : ℚ) : ℤ := if 0 ≤ q then ⌊q⌋ else ⌈q⌉

/-- Embedding of `scores.argsort()[::-1]`: indices sorted by ascending score
(numpy's sort is stable on the tiny candidate arrays involved, so ties stay in
ascending index order) and then reversed, giving descending score with ties in
descending index order. -/
def npArgsortDescend (s : ℕ → ℚ) (n : ℕ) : List ℕ :=
  (List.insertionSort (fun i j => s i < s j ∨ (s i = s j ∧ i ≤ j)) (List.range n)).reverse

/-- Per-box areas `(x2 - x1 + b) * (y2 - y1 + b)` of `nms`, where `b` is 1 when
boundaries are included and 0 otherwise. -/
def nmsAreas (x1 y1 x2 y2 : ℕ → ℚ) (b : ℚ) (i : ℕ) : ℚ :=
  (x2 i - x1 i + b) * (y2 i - y1 i + b)

/-- Overlap ratio computed by one `nms` iteration between boxes `i` and `j`:
`max(0, min)` intersection with boundary constant `b`, divided by the union area,
with the `np.divide(..., where=base_area != 0)` guard returning 0 on a zero
denominator. -/
def nmsOverlap (x1 y1 x2 y2 : ℕ → ℚ) (b : ℚ) (i j : ℕ) : ℚ :=
  let xx1 := max (x1 i) (x1 j)
  let yy1 := max (y1 i) (y1 j)
  let xx2 := min (x2 i) (x2 j)
  let yy2 := min (y2 i) (y2 j)
  let w := max 0 (xx2 - xx1 + b)
  let h := max 0 (yy2 - yy1 + b)
  let inter := w * h
  let base_area := nmsAreas x1 y1 x2 y2 b i + nmsAreas x1 y1 x2 y2 b j - inter
  if base_area = 0 then 0 else inter / base_area

/-- The `while order.size > 0` suppression loop of `nms`: keep the first index of
`order`, drop every later index whose overlap with it exceeds `thresh` (ties at
exactly `thresh` survive), repeat.  Each iteration consumes at least the head, so
running the loop with fuel equal to the length of the order list is exact. -/
def nmsLoop (ov : ℕ → ℕ → ℚ) (thresh : ℚ) : ℕ → List ℕ → List ℕ
  | _, [] => []
  | 0, _ :: _ => []
  | fuel + 1, i :: rest =>
    i :: nmsLoop ov thresh fuel (rest.filter fun j => decide (ov i j ≤ thresh))

/-- Embedding of `nms(x1, y1, x2, y2, scores, thresh, include_boundaries, keep_top_k)`.
The coordinate arrays are index functions with `n` entries; the result is the list of
kept indices in the order they were kept.  `if keep_top_k:` is a Python truthiness
test, so `keep_top_k = some 0` does not truncate. -/
def nms (x1 y1 x2 y2 scores : ℕ → ℚ) (n : ℕ) (thresh : ℚ)
    (include_boundaries : Bool) (keep_top_k : Option ℕ) : List ℕ :=
  let b : ℚ := if include_boundaries then 1 else 0
  let order0 := npArgsortDescend scores n
  let order := match keep_top_k with
    | none => order0
    | some k => if k = 0 then order0 else order0.take k
  nmsLoop (nmsOverlap x1 y1 x2 y2 b) thresh order.length order

/-- C9: `expand_box` preserves the center (stated as preservation of the coordinate
sums, which avoids a division by two), scales width and height exactly by `s`, and is
the identity at scale 1.  Purity is captured by the function model: the source writes
only a freshly allocated array. -/
theorem expand_box_center_scale (b : Box4) (s : ℚ) (hs : 0 < s) :
    (expand_box b s).x1 + (expand_box b s).x2 = b.x1 + b.x2 ∧
    (expand_box b s).y1 + (expand_box b s).y2 = b.y1 + b.y2 ∧
    (expand_box b s).x2 - (expand_box b s).x1 = s * (b.x2 - b.x1) ∧
    (expand_box b s).y2 - (expand_box b s).y1 = s * (b.y2 - b.y1) ∧
    expand_box b 1 = b := by
  obtain ⟨a1, a2, a3, a4⟩ := b
  refine ⟨?_, ?_, ?_, ?_, ?_⟩ <;> simp [expand_box] <;> try ring
  exact ⟨trivial, trivial, trivial, trivial⟩

/-- Witness for C9 at the concrete box `(1, 2, 5, 10)` and scale 2. -/
theorem expand_box_center_scale_witness :
    (0:ℚ) < 2 ∧ expand_box ⟨1, 2, 5, 10⟩ 1 = ⟨1, 2, 5, 10⟩ :=
  ⟨by norm_num, (expand_box_center_scale ⟨1, 2, 5, 10⟩ 2 (by norm_num)).2.2.2.2⟩

/-- Clipping into `[0, n]` lands in `[0, n]`. -/
theorem npClip_mem (v : ℚ) (n : ℕ) : 0 ≤ npClip v 0 (n : ℚ) ∧ npClip v 0 (n : ℚ) ≤ (n : ℚ) :=
  ⟨le_min (le_max_right _ _) (Nat.cast_nonneg n), min_le_right _ _⟩

/-- C8: both coordinates returned by `sanitize_coordinates` lie in the closed
interval `[0, size]` for every finite input and every pixel size, while `x1 ≤ x2`
is not guaranteed: a degenerate (inverted) box can be returned. -/
theorem sanitize_coordinates_range :
    (∀ (a b shift padding : ℚ) (size : ℕ),
      0 ≤ (sanitize_coordinates a b size shift padding).1 ∧
      (sanitize_coordinates a b size shift padding).1 ≤ (size : ℚ) ∧
      0 ≤ (sanitize_coordinates a b size shift padding).2 ∧
      (sanitize_coordinates a b size shift padding).2 ≤ (size : ℚ)) ∧
    (∃ (a b : ℚ) (size : ℕ),
      (sanitize_coordinates a b size 0 0).2 < (sanitize_coordinates a b size 0 0).1) := by
  constructor
  · intro a b shift padding size
    simp only [sanitize_coordinates]
    exact ⟨(npClip_mem _ _).1, (npClip_mem _ _).2, (npClip_mem _ _).1, (npClip_mem _ _).2⟩
  · refine ⟨1, 0, 1, ?_⟩
    norm_num [sanitize_coordinates, npClip]

/-- The suppression loop returns a sublist of its order list. -/
theorem nmsLoop_sublist (ov : ℕ → ℕ → ℚ) (t : ℚ) :
    ∀ (fuel : ℕ) (l : List ℕ), List.Sublist (nmsLoop ov t fuel l) l := by
  intro fuel
  induction fuel with
  | zero => intro l; cases l <;> simp [nmsLoop]
  | succ fuel ih =>
    intro l
    cases l with
    | nil => simp [nmsLoop]
    | cons i rest =>
      simp only [nmsLoop]
      exact List.Sublist.cons₂ i ((ih _).trans (List.filter_sublist rest))

/-- Any index kept by the suppression loop overlaps every later kept index by at
most the threshold. -/
theorem nmsLoop_pairwise (ov : ℕ → ℕ → ℚ) (t : ℚ) :
    ∀ (fuel : ℕ) (l : List ℕ), List.Pairwise (fun a c => ov a c ≤ t) (nmsLoop ov t fuel l) := by
  intro fuel
  induction fuel with
  | zero => intro l; cases l <;> simp [nmsLoop]
  | succ fuel ih =>
    intro l
    cases l with
    | nil => simp [nmsLoop]
    | cons i rest =>
      simp only [nmsLoop]
      refine List.Pairwise.cons ?_ (ih _)
      intro c hc
      have hmem : c ∈ rest.filter fun j => decide (ov i j ≤ t) :=
        (nmsLoop_sublist ov t fuel _).subset hc
      simpa using List.of_mem_filter hmem

/-- When every pair of distinct indices in the order list overlaps by at most the
threshold, the suppression loop keeps the whole list. -/
theorem nmsLoop_eq_self (ov : ℕ → ℕ → ℚ) (t : ℚ) :
    ∀ (fuel : ℕ) (l : List ℕ), l.Nodup →
      (∀ a ∈ l, ∀ c ∈ l, a ≠ c → ov a c ≤ t) → l.length ≤ fuel →
      nmsLoop ov t fuel l = l := by
  intro fuel
  induction fuel with
  | zero =>
    intro l _ _ hlen
    have hnil : l = [] := List.eq_nil_of_length_eq_zero (Nat.le_zero.mp hlen)
    subst hnil
    simp [nmsLoop]
  | succ fuel ih =>
    intro l hnd h hlen
    cases l with
    | nil => simp [nmsLoop]
    | cons i rest =>
      simp only [nmsLoop]
      have hfil : rest.filter (fun j => decide (ov i j ≤ t)) = rest := by
        apply List.filter_eq_self.mpr
        intro j hj
        simp only [decide_eq_true_eq]
        refine h i (by simp) j (by simp [hj]) ?_
        rintro rfl
        exact (List.nodup_cons.mp hnd).1 hj
      have hsub : ∀ a ∈ rest, ∀ c ∈ rest, a ≠ c → ov a c ≤ t := fun a ha c hc hne =>
        h a (List.mem_cons_of_mem _ ha) c (List.mem_cons_of_mem _ hc) hne
      have hlen1 : rest.length ≤ fuel := Nat.succ_le_succ_iff.mp (by simpa using hlen)
      rw [hfil, ih rest (List.nodup_cons.mp hnd).2 hsub hlen1]

/-- The overlap ratio of `nms` is symmetric in its two indices. -/
theorem nmsOverlap_comm (x1 y1 x2 y2 : ℕ → ℚ) (b : ℚ) (i j : ℕ) :
    nmsOverlap x1 y1 x2 y2 b i j = nmsOverlap x1 y1 x2 y2 b j i := by
  simp only [nmsOverlap, nmsAreas, max_comm (x1 i) (x1 j), max_comm (y1 i) (y1 j),
    min_comm (x2 i) (x2 j), min_comm (y2 i) (y2 j),
    add_comm ((x2 i - x1 i + b) * (y2 i - y1 i + b)) ((x2 j - x1 j + b) * (y2 j - y1 j + b))]

/-- The descending argsort is a permutation of the index range. -/
theorem npArgsortDescend_perm (s : ℕ → ℚ) (n : ℕ) :
    List.Perm (npArgsortDescend s n) (List.range n) :=
  (List.reverse_perm _).trans (List.perm_insertionSort _ _)

/-- C7: `nms` is idempotent.  Restricting the coordinate and score arrays to the kept
indices and running `nms` again with the same threshold and boundary flag keeps every
detection: the result is a permutation of all indices of the restricted arrays, so the
set of detections is unchanged. -/
theorem nms_idempotent (x1 y1 x2 y2 s : ℕ → ℚ) (n : ℕ) (t : ℚ) (ib : Bool) :
    List.Perm
      (nms (fun k => x1 ((nms x1 y1 x2 y2 s n t ib none).getD k 0))
        (fun k => y1 ((nms x1 y1 x2 y2 s n t ib none).getD k 0))
        (fun k => x2 ((nms x1 y1 x2 y2 s n t ib none).getD k 0))
        (fun k => y2 ((nms x1 y1 x2 y2 s n t ib none).getD k 0))
        (fun k => s ((nms x1 y1 x2 y2 s n t ib none).getD k 0))
        (nms x1 y1 x2 y2 s n t ib none).length t ib none)
      (List.range (nms x1 y1 x2 y2 s n t ib none).length) := by
  have hkd : nms x1 y1 x2 y2 s n t ib none =
      nmsLoop (nmsOverlap x1 y1 x2 y2 (if ib then 1 else 0)) t
        (npArgsortDescend s n).length (npArgsortDescend s n) := rfl
  set keep := nms x1 y1 x2 y2 s n t ib none with hkeep
  set m := keep.length with hm
  set f : ℕ → ℕ := fun k => keep.getD k 0 with hf
  have hnd0 : (npArgsortDescend s n).Nodup :=
    ((npArgsortDescend_perm s n).nodup_iff).mpr (List.nodup_range n)
  have hndk : keep.Nodup := by
    rw [hkd]
    exact (nmsLoop_sublist _ _ _ _).nodup hnd0
  have hpw : List.Pairwise
      (fun a c => nmsOverlap x1 y1 x2 y2 (if ib then 1 else 0) a c ≤ t) keep := by
    rw [hkd]
    exact nmsLoop_pairwise _ _ _ _
  have hsymm : Symmetric (fun a c => nmsOverlap x1 y1 x2 y2 (if ib then 1 else 0) a c ≤ t) := by
    intro a c h
    rw [nmsOverlap_comm]
    exact h
  have hall : ∀ a ∈ keep, ∀ c ∈ keep, a ≠ c →
      nmsOverlap x1 y1 x2 y2 (if ib then 1 else 0) a c ≤ t :=
    fun a ha c hc hne => hpw.forall hsymm ha hc hne
  have hkd2 : nms (fun k => x1 (f k)) (fun k => y1 (f k)) (fun k => x2 (f k))
      (fun k => y2 (f k)) (fun k => s (f k)) m t ib none =
      nmsLoop (nmsOverlap (fun k => x1 (f k)) (fun k => y1 (f k)) (fun k => x2 (f k))
          (fun k => y2 (f k)) (if ib then 1 else 0)) t
        (npArgsortDescend (fun k => s (f k)) m).length
        (npArgsortDescend (fun k => s (f k)) m) := rfl
  have horder : List.Perm (npArgsortDescend (fun k => s (f k)) m) (List.range m) :=
    npArgsortDescend_perm _ m
  have hnd1 : (npArgsortDescend (fun k => s (f k)) m).Nodup :=
    (horder.nodup_iff).mpr (List.nodup_range m)
  have hcomp : ∀ a c, nmsOverlap (fun k => x1 (f k)) (fun k => y1 (f k)) (fun k => x2 (f k))
      (fun k => y2 (f k)) (if ib then 1 else 0) a c =
      nmsOverlap x1 y1 x2 y2 (if ib then 1 else 0) (f a) (f c) := fun a c => rfl
  have hall1 : ∀ a ∈ npArgsortDescend (fun k => s (f k)) m,
      ∀ c ∈ npArgsortDescend (fun k => s (f k)) m, a ≠ c →
      nmsOverlap (fun k => x1 (f k)) (fun k => y1 (f k)) (fun k => x2 (f k))
        (fun k => y2 (f k)) (if ib then 1 else 0) a c ≤ t := by
    intro a ha c hc hne
    have ham : a < m := List.mem_range.mp (horder.subset ha)
    have hcm : c < m := List.mem_range.mp (horder.subset hc)
    have hfa : f a ∈ keep := by
      show keep.getD a 0 ∈ keep
      rw [List.getD_eq_getElem keep 0 ham]
      exact List.getElem_mem ham
    have hfc : f c ∈ keep := by
      show keep.getD c 0 ∈ keep
      rw [List.getD_eq_getElem keep 0 hcm]
      exact List.getElem_mem hcm
    have hne1 : f a ≠ f c := by
      intro hEq
      apply hne
      have hEq2 : keep.getD a 0 = keep.getD c 0 := hEq
      rw [List.getD_eq_getElem keep 0 ham, List.getD_eq_getElem keep 0 hcm] at hEq2
      exact (List.Nodup.getElem_inj_iff hndk).mp hEq2
    rw [hcomp a c]
    exact hall _ hfa _ hfc hne1
  rw [hkd2, nmsLoop_eq_self _ _ _ _ hnd1 hall1 le_rfl]
  exact horder

/-- Argsort of a two-element score array: the higher score comes first, and on a tie
the higher index comes first. -/
theorem argsort_two (s : ℕ → ℚ) :
    npArgsortDescend s 2 = if s 0 < s 1 ∨ s 0 = s 1 then [1, 0] else [0, 1] := by
  have h2 : List.range 2 = [0, 1] := rfl
  simp only [npArgsortDescend, h2, List.insertionSort, List.orderedInsert]
  split_ifs with hA hB hB <;>
    first
      | rfl
      | exact absurd (hA.imp id And.left) hB
      | exact absurd (hB.imp id fun hEq => ⟨hEq, by norm_num⟩) hA

/-- The suppression loop on a two-index order list keeps the second index exactly
when its overlap with the first is at most the threshold. -/
theorem nmsLoop_two (ov : ℕ → ℕ → ℚ) (t : ℚ) (i j : ℕ) :
    nmsLoop ov t 2 [i, j] = if ov i j ≤ t then [i, j] else [i] := by
  by_cases h : ov i j ≤ t <;> simp [nmsLoop, List.filter, h]

/-- Closed evaluation of `nms` on two boxes, for arbitrary scores. -/
theorem nms_two_eval (x1 y1 x2 y2 s : ℕ → ℚ) (t : ℚ) (ib : Bool) :
    nms x1 y1 x2 y2 s 2 t ib none =
      if s 0 < s 1 ∨ s 0 = s 1 then
        if nmsOverlap x1 y1 x2 y2 (if ib then 1 else 0) 1 0 ≤ t then [1, 0] else [1]
      else
        if nmsOverlap x1 y1 x2 y2 (if ib then 1 else 0) 0 1 ≤ t then [0, 1] else [0] := by
  have hkd : nms x1 y1 x2 y2 s 2 t ib none =
      nmsLoop (nmsOverlap x1 y1 x2 y2 (if ib then 1 else 0)) t
        (npArgsortDescend s 2).length (npArgsortDescend s 2) := rfl
  rw [hkd, argsort_two]
  by_cases h : s 0 < s 1 ∨ s 0 = s 1
  · rw [if_pos h, if_pos h]
    exact nmsLoop_two _ _ _ _
  · rw [if_neg h, if_neg h]
    exact nmsLoop_two _ _ _ _

/-- C3 as stated fails on the code: for the corner-touching unit boxes (0,0,1,1) and
(1,1,2,2) with `include_boundaries = True` the computed overlap ratio is 1/7 (one
shared boundary pixel), not 0, so the threshold 1/10 < 1 suppresses one box: only
index 0 is kept, not both. -/
theorem nms_corner_boxes_counterexample :
    nms (fun i => if i = 0 then 0 else 1) (fun i => if i = 0 then 0 else 1)
      (fun i => if i = 0 then 1 else 2) (fun i => if i = 0 then 1 else 2)
      (fun i => if i = 0 then 3/4 else 1/2) 2 (1/10) true none = [0] := by
  rw [nms_two_eval]
  norm_num [nmsOverlap, nmsAreas, max_def, min_def]

/-- C3 amended: for the two corner-touching unit boxes, with inclusive boundaries the
overlap ratio is 1/7 (one shared pixel), so for arbitrary scores both boxes are kept
exactly when `1/7 ≤ thresh`; the zero-denominator guard yields ratio 0 only with
exclusive boundaries, where both boxes are kept exactly when `0 ≤ thresh`. -/
theorem nms_corner_boxes_amended (s : ℕ → ℚ) (t : ℚ) :
    nmsOverlap (fun i => if i = 0 then 0 else 1) (fun i => if i = 0 then 0 else 1)
      (fun i => if i = 0 then 1 else 2) (fun i => if i = 0 then 1 else 2) 1 0 1 = 1/7 ∧
    nmsOverlap (fun i => if i = 0 then 0 else 1) (fun i => if i = 0 then 0 else 1)
      (fun i => if i = 0 then 1 else 2) (fun i => if i = 0 then 1 else 2) 0 0 1 = 0 ∧
    ((nms (fun i => if i = 0 then 0 else 1) (fun i => if i = 0 then 0 else 1)
        (fun i => if i = 0 then 1 else 2) (fun i => if i = 0 then 1 else 2)
        s 2 t true none).length = 2 ↔ 1/7 ≤ t) ∧
    ((nms (fun i => if i = 0 then 0 else 1) (fun i => if i = 0 then 0 else 1)
        (fun i => if i = 0 then 1 else 2) (fun i => if i = 0 then 1 else 2)
        s 2 t false none).length = 2 ↔ 0 ≤ t) := by
  have hov1 : nmsOverlap (fun i => if i = 0 then (0:ℚ) else 1) (fun i => if i = 0 then 0 else 1)
      (fun i => if i = 0 then 1 else 2) (fun i => if i = 0 then 1 else 2) 1 0 1 = 1/7 := by
    norm_num [nmsOverlap, nmsAreas, max_def, min_def]
  have hov1r : nmsOverlap (fun i => if i = 0 then (0:ℚ) else 1) (fun i => if i = 0 then 0 else 1)
      (fun i => if i = 0 then 1 else 2) (fun i => if i = 0 then 1 else 2) 1 1 0 = 1/7 := by
    rw [nmsOverlap_comm]
    exact hov1
  have hov0 : nmsOverlap (fun i => if i = 0 then (0:ℚ) else 1) (fun i => if i = 0 then 0 else 1)
      (fun i => if i = 0 then 1 else 2) (fun i => if i = 0 then 1 else 2) 0 0 1 = 0 := by
    norm_num [nmsOverlap, nmsAreas, max_def, min_def]
  have hov0r : nmsOverlap (fun i => if i = 0 then (0:ℚ) else 1) (fun i => if i = 0 then 0 else 1)
      (fun i => if i = 0 then 1 else 2) (fun i => if i = 0 then 1 else 2) 0 1 0 = 0 := by
    rw [nmsOverlap_comm]
    exact hov0
  refine ⟨hov1, hov0, ?_, ?_⟩
  · rw [nms_two_eval]
    by_cases h : s 0 < s 1 ∨ s 0 = s 1
    · rw [if_pos h]
      rw [show (if true then (1:ℚ) else 0) = 1 from rfl, hov1r]
      by_cases h2 : (1/7:ℚ) ≤ t
      · rw [if_pos h2]
        exact ⟨fun _ => h2, fun _ => rfl⟩
      · rw [if_neg h2]
        exact ⟨fun hc => absurd hc (by decide), fun hc => absurd hc h2⟩
    · rw [if_neg h]
      rw [show (if true then (1:ℚ) else 0) = 1 from rfl, hov1]
      by_cases h2 : (1/7:ℚ) ≤ t
      · rw [if_pos h2]
        exact ⟨fun _ => h2, fun _ => rfl⟩
      · rw [if_neg h2]
        exact ⟨fun hc => absurd hc (by decide), fun hc => absurd hc h2⟩
  · rw [nms_two_eval]
    by_cases h : s 0 < s 1 ∨ s 0 = s 1
    · rw [if_pos h]
      rw [show (if false then (1:ℚ) else 0) = 0 from rfl, hov0r]
      by_cases h2 : (0:ℚ) ≤ t
      · rw [if_pos h2]
        exact ⟨fun _ => h2, fun _ => rfl⟩
      · rw [if_neg h2]
        exact ⟨fun hc => absurd hc (by decide), fun hc => absurd hc h2⟩
    · rw [if_neg h]
      rw [show (if false then (1:ℚ) else 0) = 0 from rfl, hov0]
      by_cases h2 : (0:ℚ) ≤ t
      · rw [if_pos h2]
        exact ⟨fun _ => h2, fun _ => rfl⟩
      · rw [if_neg h2]
        exact ⟨fun hc => absurd hc (by decide), fun hc => absurd hc h2⟩

/-- C6 as stated fails on the code: two identical boxes of zero area (all coordinates
equal, exclusive boundaries) have computed overlap 0, not 1, and with threshold
1/2 ∈ (0,1) both duplicates are kept. -/
theorem nms_identical_boxes_counterexample :
    nms (fun _ => 0) (fun _ => 0) (fun _ => 0) (fun _ => 0) (fun _ => 1) 2 (1/2) false none
        = [1, 0] ∧
    nmsOverlap (fun _ => 0) (fun _ => 0) (fun _ => 0) (fun _ => 0) 0 0 1 = 0 := by
  constructor
  · rw [nms_two_eval]
    norm_num [nmsOverlap, nmsAreas, max_def, min_def]
  · norm_num [nmsOverlap, nmsAreas, max_def, min_def]

/-- C6 amended: for identical boxes with positive extents under the chosen boundary
convention, the computed overlap is exactly 1; in a two-box input of such duplicates
with threshold in (0,1), exactly one box is kept, and on a score tie it is the
higher-indexed one (the lower-indexed duplicate is suppressed). -/
theorem nms_identical_boxes_amended (x1 y1 x2 y2 s : ℕ → ℚ) (t : ℚ) (ib : Bool)
    (h1 : x1 0 = x1 1) (h2 : y1 0 = y1 1) (h3 : x2 0 = x2 1) (h4 : y2 0 = y2 1)
    (hw : 0 < x2 0 - x1 0 + (if ib then 1 else 0))
    (hh : 0 < y2 0 - y1 0 + (if ib then 1 else 0))
    (ht0 : 0 < t) (ht1 : t < 1) :
    nmsOverlap x1 y1 x2 y2 (if ib then 1 else 0) 0 1 = 1 ∧
    (nms x1 y1 x2 y2 s 2 t ib none).length = 1 ∧
    (s 0 = s 1 → nms x1 y1 x2 y2 s 2 t ib none = [1]) := by
  have hpos : 0 < (x2 0 - x1 0 + (if ib then (1:ℚ) else 0)) * (y2 0 - y1 0 + (if ib then 1 else 0)) :=
    mul_pos hw hh
  have hov : nmsOverlap x1 y1 x2 y2 (if ib then 1 else 0) 0 1 = 1 := by
    simp only [nmsOverlap, nmsAreas, ← h1, ← h2, ← h3, ← h4, max_self, min_self]
    rw [max_eq_right hw.le, max_eq_right hh.le]
    have hbase : (x2 0 - x1 0 + (if ib then (1:ℚ) else 0)) * (y2 0 - y1 0 + (if ib then 1 else 0))
        + (x2 0 - x1 0 + (if ib then 1 else 0)) * (y2 0 - y1 0 + (if ib then 1 else 0))
        - (x2 0 - x1 0 + (if ib then 1 else 0)) * (y2 0 - y1 0 + (if ib then 1 else 0))
        = (x2 0 - x1 0 + (if ib then 1 else 0)) * (y2 0 - y1 0 + (if ib then 1 else 0)) := by
      ring
    rw [hbase, if_neg hpos.ne', div_self hpos.ne']
  have hovr : nmsOverlap x1 y1 x2 y2 (if ib then 1 else 0) 1 0 = 1 := by
    rw [nmsOverlap_comm]
    exact hov
  have hnot : ¬ nmsOverlap x1 y1 x2 y2 (if ib then 1 else 0) 1 0 ≤ t := by
    rw [hovr]
    linarith
  have hnot2 : ¬ nmsOverlap x1 y1 x2 y2 (if ib then 1 else 0) 0 1 ≤ t := by
    rw [hov]
    linarith
  refine ⟨hov, ?_, ?_⟩
  · rw [nms_two_eval]
    by_cases h : s 0 < s 1 ∨ s 0 = s 1
    · rw [if_pos h, if_neg hnot]
      rfl
    · rw [if_neg h, if_neg hnot2]
      rfl
  · intro hts
    rw [nms_two_eval, if_pos (Or.inr hts), if_neg hnot]

/-- Witness for C6 amended at two identical unit boxes with tied scores. -/
theorem nms_identical_boxes_amended_witness :
    (0:ℚ) < 1/2 ∧ (1/2:ℚ) < 1 ∧
    nms (fun _ => 0) (fun _ => 0) (fun _ => 1) (fun _ => 1) (fun _ => 5) 2 (1/2) true none
      = [1] :=
  ⟨by norm_num, by norm_num,
    (nms_identical_boxes_amended (fun _ => 0) (fun _ => 0) (fun _ => 1) (fun _ => 1)
      (fun _ => 5) (1/2) true rfl rfl rfl rfl (by norm_num) (by norm_num)
      (by norm_num) (by norm_num)).2.2 rfl⟩

/-- A full-frame mask canvas: the pixel value at row `r`, column `c`.  The canvas is
created as `np.zeros((im_h, im_w), dtype=np.uint8)` and written only inside the
placement window. -/
def Mask : Type := ℕ → ℕ → ℕ

instance : Inhabited Mask := ⟨fun _ _ => 0⟩

/-- Embedding of `np.pad(m, ((1, 1), (1, 1)), constant_values=0)`: a one-pixel zero
border on all four sides. -/
def pad2d (m : List (List ℚ)) : List (List ℚ) :=
  let w := (m.headD []).length
  let zrow : List ℚ := List.replicate (w + 2) 0
  (zrow :: m.map fun row => ((0:ℚ) :: row) ++ [(0:ℚ)]) ++ [zrow]

/-- Clipped placement window `(x0, y0, x1, y1)` of `segm_postprocess`: the expanded
box is truncated to integers and `[ex1, ex2 + 1) × [ey1, ey2 + 1)` is clipped
against `[0, im_w] × [0, im_h]`. -/
def segm_window (box : Box4) (raw_cls_mask : List (List ℚ)) (im_h im_w : ℕ) :
    ℤ × ℤ × ℤ × ℤ :=
  let padded := pad2d raw_cls_mask
  let scale : ℚ := (padded.length : ℚ) / ((padded.length : ℚ) - 2)
  let eb := expand_box box scale
  let x0 : ℤ := min (max (ratTrunc eb.x1) 0) im_w
  let y0 : ℤ := min (max (ratTrunc eb.y1) 0) im_h
  let xe : ℤ := min (max (ratTrunc eb.x2 + 1) 0) im_w
  let ye : ℤ := min (max (ratTrunc eb.y2 + 1) 0) im_h
  (x0, y0, xe, ye)

/-- Embedding of `segm_postprocess(box, raw_cls_mask, im_h, im_w)`: pad the logit
mask with a zero border, expand the box by the padding ratio, resize (external
`cv2resize`, given the source array and the target width and height), binarize at
0.5, and paste into a zero canvas at the clipped window, the source pixel being
offset by the unclipped truncated box corner. -/
def segm_postprocess (cv2resize : List (List ℚ) → ℕ → ℕ → List (List ℚ))
    (box : Box4) (raw_cls_mask : List (List ℚ)) (im_h im_w : ℕ) : Mask :=
  let padded := pad2d raw_cls_mask
  let scale : ℚ := (padded.length : ℚ) / ((padded.length : ℚ) - 2)
  let eb := expand_box box scale
  let ex1 := ratTrunc eb.x1
  let ey1 := ratTrunc eb.y1
  let ex2 := ratTrunc eb.x2
  let ey2 := ratTrunc eb.y2
  let w : ℤ := max (ex2 - ex1 + 1) 1
  let h : ℤ := max (ey2 - ey1 + 1) 1
  let mask := (cv2resize padded w.toNat h.toNat).map fun row =>
    row.map fun v => if 1/2 < v then (1:ℕ) else 0
  let win := segm_window box raw_cls_mask im_h im_w
  fun r c =>
    if win.2.1 ≤ (r:ℤ) ∧ (r:ℤ) < win.2.2.2 ∧ win.1 ≤ (c:ℤ) ∧ (c:ℤ) < win.2.2.1 then
      (mask.getD ((r:ℤ) - ey1).toNat []).getD ((c:ℤ) - ex1).toNat 0
    else 0

/-- Every pixel outside the clipped placement window of `segm_postprocess` is zero:
the full-frame canvas is freshly zero-initialized and written only inside the window. -/
theorem segm_postprocess_outside_zero (cv2resize : List (List ℚ) → ℕ → ℕ → List (List ℚ))
    (box : Box4) (raw : List (List ℚ)) (im_h im_w : ℕ) (r c : ℕ)
    (hout : ¬ ((segm_window box raw im_h im_w).2.1 ≤ (r:ℤ) ∧
        (r:ℤ) < (segm_window box raw im_h im_w).2.2.2 ∧
        (segm_window box raw im_h im_w).1 ≤ (c:ℤ) ∧
        (c:ℤ) < (segm_window box raw im_h im_w).2.2.1)) :
    segm_postprocess cv2resize box raw im_h im_w r c = 0 := by
  simp only [segm_postprocess]
  rw [if_neg hout]

/-- Raw output dictionary consumed by `mask_rcnn_postprocess`: `boxes` (N×4),
`scores` (N), `classes` (N, integer-valued floats), `raw_masks` (N×C×Hm×Wm). -/
structure MaskRcnnOutputs where
  boxes : List Box4
  scores : List ℚ
  classes : List ℚ
  raw_masks : List (List (List (List ℚ)))
deriving DecidableEq, Inhabited

/-- Conversion `astype(np.uint32)` of the nonnegative integer-valued class floats. -/
def npToUint32 (q : ℚ) : ℕ := (ratTrunc q).toNat % 2 ^ 32

/-- Filtering a list by a parallel boolean list, the core of numpy boolean indexing
and of the Python `zip`-based generator filter used for the mask list. -/
def boolKeep {α : Type} (l : List α) (f : List Bool) : List α :=
  (l.zip f).filterMap fun p => if p.2 then some p.1 else none

/-- Numpy boolean-array indexing `a[filt]`: raises unless the lengths agree, then
keeps the entries at true positions. -/
def npBoolIndex {α : Type} (l : List α) (f : List Bool) : Option (List α) :=
  if l.length = f.length then some (boolKeep l f) else none

/-- Embedding of `mask_rcnn_postprocess`.  The source divides `outputs['boxes']` in
place by the scales before any filtering; the returned pair is (result-or-error,
final state of the outputs dictionary), which makes that mutation explicit. -/
def mask_rcnn_postprocess (cv2resize : List (List ℚ) → ℕ → ℕ → List (List ℚ))
    (o : MaskRcnnOutputs) (scale_x scale_y : ℚ) (frame_height frame_width : ℕ)
    (input_height input_width : ℕ) (conf_threshold : ℚ) :
    Option (List ℚ × List ℕ × List Box4 × List Mask) × MaskRcnnOutputs :=
  let boxes := o.boxes.map fun bx =>
    ⟨bx.x1 / scale_x, bx.y1 / scale_y, bx.x2 / scale_x, bx.y2 / scale_y⟩
  let scores := o.scores
  let classes := o.classes.map npToUint32
  let masks := (boxes.zip (classes.zip o.raw_masks)).map fun p =>
    segm_postprocess cv2resize p.1 (p.2.2.getD p.2.1 []) frame_height frame_width
  let detections_filter := scores.map fun sc => decide (sc > conf_threshold)
  let result := (npBoolIndex scores detections_filter).bind fun scoresF =>
    (npBoolIndex classes detections_filter).bind fun classesF =>
    (npBoolIndex boxes detections_filter).bind fun boxesF =>
    some (scoresF, classesF, boxesF, boolKeep masks detections_filter)
  (result, { o with boxes := boxes })

/-- C4 fails on the code: `mask_rcnn_postprocess` mutates the caller's
`outputs['boxes']` in place.  With one box (2, 2, 2, 2) and scales 2 and 1, the boxes
array held by the outputs dictionary afterwards is (1, 2, 1, 2), not the original. -/
theorem mask_rcnn_mutates_boxes_counterexample :
    (mask_rcnn_postprocess (fun m _ _ => m)
        ⟨[⟨2, 2, 2, 2⟩], [1], [0], [[]]⟩ 2 1 4 4 4 4 (1/2)).2.boxes = [⟨1, 2, 1, 2⟩] ∧
    [Box4.mk 1 2 1 2] ≠ [Box4.mk 2 2 2 2] := by
  constructor
  · norm_num [mask_rcnn_postprocess, Box4.mk.injEq]
  · intro h
    have h2 : Box4.mk 1 2 1 2 = Box4.mk 2 2 2 2 := by injection h
    have h3 : (1:ℚ) = 2 := congrArg Box4.x1 h2
    norm_num at h3

/-- C4 amended: `mask_rcnn_postprocess` does not leave the caller's arrays unchanged:
it rescales `outputs['boxes']` in place (x coordinates divided by `scale_x`, y by
`scale_y`), and that rescaled array is exactly the state the caller observes
afterwards; each returned mask buffer is freshly zero-initialized, every pixel
outside its placement window being 0. -/
theorem mask_rcnn_in_place_amended (cv2resize : List (List ℚ) → ℕ → ℕ → List (List ℚ))
    (o : MaskRcnnOutputs) (scale_x scale_y : ℚ)
    (frame_height frame_width input_height input_width : ℕ) (conf_threshold : ℚ) :
    (mask_rcnn_postprocess cv2resize o scale_x scale_y frame_height frame_width
        input_height input_width conf_threshold).2 =
      { o with boxes := o.boxes.map fun bx =>
          ⟨bx.x1 / scale_x, bx.y1 / scale_y, bx.x2 / scale_x, bx.y2 / scale_y⟩ } ∧
    (∀ (box : Box4) (raw : List (List ℚ)) (r c : ℕ),
      ¬ ((segm_window box raw frame_height frame_width).2.1 ≤ (r:ℤ) ∧
          (r:ℤ) < (segm_window box raw frame_height frame_width).2.2.2 ∧
          (segm_window box raw frame_height frame_width).1 ≤ (c:ℤ) ∧
          (c:ℤ) < (segm_window box raw frame_height frame_width).2.2.1) →
      segm_postprocess cv2resize box raw frame_height frame_width r c = 0) :=
  ⟨rfl, fun box raw r c hout =>
    segm_postprocess_outside_zero cv2resize box raw frame_height frame_width r c hout⟩

/-- Witness for C4 amended: the in-place rescaling observed on a concrete outputs
dictionary. -/
theorem mask_rcnn_in_place_amended_witness :
    (mask_rcnn_postprocess (fun m _ _ => m)
        ⟨[⟨2, 2, 2, 2⟩], [1], [0], [[]]⟩ 2 1 4 4 4 4 (1/2)).2 =
      ⟨[⟨2/2, 2/1, 2/2, 2/1⟩], [1], [0], [[]]⟩ :=
  (mask_rcnn_in_place_amended (fun m _ _ => m)
    ⟨[⟨2, 2, 2, 2⟩], [1], [0], [[]]⟩ 2 1 4 4 4 4 (1/2)).1

/-- Reading a mapped list by index with defaults. -/
theorem getD_map_lt {α β : Type} (g : α → β) (l : List α) (i : ℕ) (h : i < l.length)
    (dB : β) (dA : α) : (l.map g).getD i dB = g (l.getD i dA) := by
  rw [List.getD_eq_getElem _ _ (by simpa using h), List.getD_eq_getElem _ _ h,
    List.getElem_map]

/-- Reading a zipped pair of lists by index with defaults. -/
theorem getD_zip_lt {α β : Type} (l1 : List α) (l2 : List β) (i : ℕ)
    (h1 : i < l1.length) (h2 : i < l2.length) (d : α × β) (d1 : α) (d2 : β) :
    (l1.zip l2).getD i d = (l1.getD i d1, l2.getD i d2) := by
  have hz : i < (l1.zip l2).length := by
    rw [List.length_zip]
    exact lt_min h1 h2
  rw [List.getD_eq_getElem _ _ hz, List.getD_eq_getElem _ _ h1, List.getD_eq_getElem _ _ h2,
    List.getElem_zip]

/-- Filtering by a parallel boolean list of equal length keeps exactly the entries
whose index passes the boolean test, read off by index. -/
theorem boolKeep_eq {α : Type} (d : α) :
    ∀ (l : List α) (f : List Bool), l.length = f.length →
      boolKeep l f =
        ((List.range l.length).filter fun i => f.getD i false).map fun i => l.getD i d := by
  intro l
  induction l with
  | nil => intro f _; rfl
  | cons a l ih =>
    intro f h
    cases f with
    | nil => simp at h
    | cons b f =>
      have hlen : l.length = f.length := by simpa using h
      have hrec := ih f hlen
      have hL : boolKeep (a :: l) (b :: f) =
          if b then a :: boolKeep l f else boolKeep l f := by
        simp only [boolKeep, List.zip_cons_cons, List.filterMap_cons]
        cases b <;> simp
      have hcomp : ((fun i => (b :: f).getD i false) ∘ Nat.succ) = fun i => f.getD i false := by
        funext i
        simp [List.getD_cons_succ]
      have hR : ((List.range (a :: l).length).filter fun i => (b :: f).getD i false).map
            (fun i => (a :: l).getD i d) =
          if b then
            a :: (((List.range l.length).filter fun i => f.getD i false).map fun i => l.getD i d)
          else
            ((List.range l.length).filter fun i => f.getD i false).map fun i => l.getD i d := by
        rw [List.length_cons, List.range_succ_eq_map, List.filter_cons]
        have hb0 : (b :: f).getD 0 false = b := List.getD_cons_zero
        rw [hb0, List.filter_map, hcomp]
        cases b
        · simp only [Bool.false_eq_true, if_false, List.map_map]
          congr 1
        · simp only [if_true, List.map_cons, List.getD_cons_zero, List.map_map]
          congr 1
      rw [hL, hR, hrec]

/-- A successful numpy boolean indexing. -/
theorem npBoolIndex_some {α : Type} (l : List α) (f : List Bool) (h : l.length = f.length) :
    npBoolIndex l f = some (boolKeep l f) := if_pos h

/-- Exact characterization of the region-proposal postprocessing result: when the raw
output arrays have matching lengths, the call succeeds and the four returned parallel
lists are exactly the raw detections whose score is strictly above the threshold,
score, class, rescaled box and mask all taken at the same raw index. -/
theorem mask_rcnn_region_spec (cv2resize : List (List ℚ) → ℕ → ℕ → List (List ℚ))
    (o : MaskRcnnOutputs) (scale_x scale_y : ℚ)
    (frame_height frame_width input_height input_width : ℕ) (conf_threshold : ℚ)
    (hc : o.classes.length = o.scores.length)
    (hb : o.boxes.length = o.scores.length)
    (hr : o.raw_masks.length = o.scores.length) :
    (mask_rcnn_postprocess cv2resize o scale_x scale_y frame_height frame_width
        input_height input_width conf_threshold).1 =
      some (
        ((List.range o.scores.length).filter fun i =>
            decide (o.scores.getD i 0 > conf_threshold)).map fun i => o.scores.getD i 0,
        ((List.range o.scores.length).filter fun i =>
            decide (o.scores.getD i 0 > conf_threshold)).map fun i =>
              npToUint32 (o.classes.getD i 0),
        ((List.range o.scores.length).filter fun i =>
            decide (o.scores.getD i 0 > conf_threshold)).map fun i =>
              Box4.mk ((o.boxes.getD i default).x1 / scale_x)
                ((o.boxes.getD i default).y1 / scale_y)
                ((o.boxes.getD i default).x2 / scale_x)
                ((o.boxes.getD i default).y2 / scale_y),
        ((List.range o.scores.length).filter fun i =>
            decide (o.scores.getD i 0 > conf_threshold)).map fun i =>
              segm_postprocess cv2resize
                (Box4.mk ((o.boxes.getD i default).x1 / scale_x)
                  ((o.boxes.getD i default).y1 / scale_y)
                  ((o.boxes.getD i default).x2 / scale_x)
                  ((o.boxes.getD i default).y2 / scale_y))
                ((o.raw_masks.getD i []).getD (npToUint32 (o.classes.getD i 0)) [])
                frame_height frame_width) := by
  have hkeq : ((List.range o.scores.length).filter fun i =>
        (o.scores.map fun sc => decide (sc > conf_threshold)).getD i false)
      = ((List.range o.scores.length).filter fun i =>
        decide (o.scores.getD i 0 > conf_threshold)) := by
    apply List.filter_congr
    intro i hi
    rw [getD_map_lt _ _ i (List.mem_range.mp hi) false 0]
  have hfl : o.scores.length = (o.scores.map fun sc => decide (sc > conf_threshold)).length := by
    simp
  have hS : npBoolIndex o.scores (o.scores.map fun sc => decide (sc > conf_threshold)) =
      some (((List.range o.scores.length).filter fun i =>
          decide (o.scores.getD i 0 > conf_threshold)).map fun i => o.scores.getD i 0) := by
    rw [npBoolIndex_some _ _ hfl, boolKeep_eq 0 _ _ hfl, hkeq]
  have hcl : (o.classes.map npToUint32).length =
      (o.scores.map fun sc => decide (sc > conf_threshold)).length := by
    simp [hc]
  have hC : npBoolIndex (o.classes.map npToUint32)
        (o.scores.map fun sc => decide (sc > conf_threshold)) =
      some (((List.range o.scores.length).filter fun i =>
          decide (o.scores.getD i 0 > conf_threshold)).map fun i =>
            npToUint32 (o.classes.getD i 0)) := by
    rw [npBoolIndex_some _ _ hcl, boolKeep_eq (npToUint32 0) _ _ hcl, List.length_map, hc, hkeq]
    congr 1
    apply List.map_congr_left
    intro i hi
    have hin : i < o.scores.length := List.mem_range.mp (List.mem_of_mem_filter hi)
    rw [getD_map_lt npToUint32 o.classes i (hc.symm ▸ hin) (npToUint32 0) 0]
  have hbl : (o.boxes.map fun bx =>
        Box4.mk (bx.x1 / scale_x) (bx.y1 / scale_y) (bx.x2 / scale_x) (bx.y2 / scale_y)).length =
      (o.scores.map fun sc => decide (sc > conf_threshold)).length := by
    simp [hb]
  have hB : npBoolIndex (o.boxes.map fun bx =>
        Box4.mk (bx.x1 / scale_x) (bx.y1 / scale_y) (bx.x2 / scale_x) (bx.y2 / scale_y))
        (o.scores.map fun sc => decide (sc > conf_threshold)) =
      some (((List.range o.scores.length).filter fun i =>
          decide (o.scores.getD i 0 > conf_threshold)).map fun i =>
            Box4.mk ((o.boxes.getD i default).x1 / scale_x)
              ((o.boxes.getD i default).y1 / scale_y)
              ((o.boxes.getD i default).x2 / scale_x)
              ((o.boxes.getD i default).y2 / scale_y)) := by
    rw [npBoolIndex_some _ _ hbl, boolKeep_eq default _ _ hbl, List.length_map, hb, hkeq]
    congr 1
    apply List.map_congr_left
    intro i hi
    have hin : i < o.scores.length := List.mem_range.mp (List.mem_of_mem_filter hi)
    rw [getD_map_lt _ o.boxes i (hb.symm ▸ hin) default default]
  have hml : (((o.boxes.map fun bx =>
        Box4.mk (bx.x1 / scale_x) (bx.y1 / scale_y) (bx.x2 / scale_x) (bx.y2 / scale_y)).zip
        ((o.classes.map npToUint32).zip o.raw_masks)).map fun p =>
          segm_postprocess cv2resize p.1 (p.2.2.getD p.2.1 []) frame_height frame_width).length =
      (o.scores.map fun sc => decide (sc > conf_threshold)).length := by
    simp [hb, hc, hr]
  have hM : boolKeep (((o.boxes.map fun bx =>
        Box4.mk (bx.x1 / scale_x) (bx.y1 / scale_y) (bx.x2 / scale_x) (bx.y2 / scale_y)).zip
        ((o.classes.map npToUint32).zip o.raw_masks)).map fun p =>
          segm_postprocess cv2resize p.1 (p.2.2.getD p.2.1 []) frame_height frame_width)
        (o.scores.map fun sc => decide (sc > conf_threshold)) =
      ((List.range o.scores.length).filter fun i =>
          decide (o.scores.getD i 0 > conf_threshold)).map fun i =>
            segm_postprocess cv2resize
              (Box4.mk ((o.boxes.getD i default).x1 / scale_x)
                ((o.boxes.getD i default).y1 / scale_y)
                ((o.boxes.getD i default).x2 / scale_x)
                ((o.boxes.getD i default).y2 / scale_y))
              ((o.raw_masks.getD i []).getD (npToUint32 (o.classes.getD i 0)) [])
              frame_height frame_width := by
    rw [boolKeep_eq default _ _ hml]
    have hlfix : (((o.boxes.map fun bx =>
        Box4.mk (bx.x1 / scale_x) (bx.y1 / scale_y) (bx.x2 / scale_x) (bx.y2 / scale_y)).zip
        ((o.classes.map npToUint32).zip o.raw_masks)).map fun p =>
          segm_postprocess cv2resize p.1 (p.2.2.getD p.2.1 []) frame_height frame_width).length =
        o.scores.length := by
      simp [hb, hc, hr]
    rw [hlfix, hkeq]
    apply List.map_congr_left
    intro i hi
    have hin : i < o.scores.length := List.mem_range.mp (List.mem_of_mem_filter hi)
    have hzl : i < ((o.boxes.map fun bx =>
        Box4.mk (bx.x1 / scale_x) (bx.y1 / scale_y) (bx.x2 / scale_x) (bx.y2 / scale_y)).zip
        ((o.classes.map npToUint32).zip o.raw_masks)).length := by
      simp [hb, hc, hr]
      omega
    rw [getD_map_lt _ _ i (by simpa using hzl) default ((default : Box4), ((0:ℕ), ([] : List (List (List ℚ)))))]
    rw [getD_zip_lt _ _ i (by simpa using hb.symm ▸ hin) (by simp [hc, hr]; omega)
      ((default : Box4), ((0:ℕ), ([] : List (List (List ℚ))))) default ((0:ℕ), ([] : List (List (List ℚ))))]
    rw [getD_zip_lt _ _ i (by simpa using hc.symm ▸ hin) (hr.symm ▸ hin)
      ((0:ℕ), ([] : List (List (List ℚ)))) 0 []]
    rw [getD_map_lt _ o.boxes i (hb.symm ▸ hin) default default,
      getD_map_lt npToUint32 o.classes i (hc.symm ▸ hin) 0 0]
  simp only [mask_rcnn_postprocess]
  rw [hS]
  simp only [Option.bind]
  rw [hC]
  simp only [Option.bind]
  rw [hB]
  simp only [Option.bind]
  rw [hM]

/-- Embedding of `np.concatenate(list_of_arrays)`: raises on an empty list. -/
def npConcatenate {α : Type} : List (List α) → Option (List α)
  | [] => none
  | ls => some ls.flatten

/-- Embedding of `np.arange(n)` with the float dtype of the coordinate arrays. -/
def npArangeQ (n : ℕ) : List ℚ := (List.range n).map fun i : ℕ => (i : ℚ)

/-- Embedding of flat `np.repeat(a, k)`: each element repeated `k` times in place. -/
def npRepeat {α : Type} : List α → ℕ → List α
  | [], _ => []
  | x :: xs, k => List.replicate k x ++ npRepeat xs k

/-- The rows of `np.reshape(flat, (r, c))`: row `i` is the `c`-element slice of the
flat array starting at `i * c`. -/
def chunkList {α : Type} (r c : ℕ) (l : List α) : List (List α) :=
  (List.range r).map fun i => (l.drop (i * c)).take c

/-- Embedding of `np.reshape(flat, (r, c))`: raises unless the element counts agree. -/
def npReshape2 {α : Type} (l : List α) (r c : ℕ) : Option (List (List α)) :=
  if l.length = r * c then some (chunkList r c l) else none

/-- Embedding of `np.reshape(flat, (a, b, c))`: raises unless the element counts
agree. -/
def npReshape3 {α : Type} (l : List α) (a b c : ℕ) : Option (List (List (List α))) :=
  if l.length = a * b * c then some ((chunkList a (b * c) l).map (chunkList b c)) else none

/-- Embedding of `np.repeat(m, k, axis=-1)` on a 2-D array. -/
def npRepeatLast2 {α : Type} (m : List (List α)) (k : ℕ) : List (List α) :=
  m.map fun row => npRepeat row k

/-- Embedding of `np.transpose(t, (1, 0, 2))`. -/
def transpose102 {α : Type} (m : List (List (List α))) : List (List (List α)) :=
  (List.range (m.headD []).length).map fun i => m.map fun row => row.getD i []

/-- Embedding of the 2-D transposes `np.transpose(conf[0])` and `masks.T`. -/
def transpose2 (m : List (List ℚ)) : List (List ℚ) :=
  (List.range (m.headD []).length).map fun j => m.map fun row => row.getD j 0

/-- Embedding of `np.transpose(t, (2, 0, 1))`: instance-first layout. -/
def transpose201 (m : List (List (List ℚ))) : List (List (List ℚ)) :=
  (List.range (((m.headD []).headD []).length)).map fun k =>
    m.map fun row => row.map fun inner => inner.getD k 0

/-- Embedding of the matrix product `proto_data @ masks.T`, contracting the innermost
axis of the H×W×K prototype array with the rows of the K×N coefficient array; raises
unless the contracted lengths agree. -/
def matmul3 (proto : List (List (List ℚ))) (mT : List (List ℚ)) :
    Option (List (List (List ℚ))) :=
  if proto.all fun row => row.all fun inner => inner.length = mT.length then
    some (proto.map fun row => row.map fun inner =>
      (List.range (mT.headD []).length).map fun nIdx =>
        ((List.range mT.length).map fun k => inner.getD k 0 * (mT.getD k []).getD nIdx 0).sum)
  else none

/-- Elementwise logistic transfer `1 / (1 + np.exp(-v))`; `np.exp` is the external
exponential passed in as a function parameter. -/
def sigmoid3 (npExp : ℚ → ℚ) (m : List (List (List ℚ))) : List (List (List ℚ)) :=
  m.map fun row => row.map fun inner => inner.map fun v => 1 / (1 + npExp (-v))

/-- Comparison of a 3-D grid against a per-instance bound array, broadcast over the
last axis. -/
def cmpLast (m : List (List (List ℚ))) (v : List ℚ) (f : ℚ → ℚ → Bool) :
    List (List (List Bool)) :=
  m.map fun row => row.map fun inner => List.zipWith f inner v

/-- Elementwise conjunction of two 3-D boolean grids (numpy `*` on booleans). -/
def and3 (a b : List (List (List Bool))) : List (List (List Bool)) :=
  List.zipWith (List.zipWith (List.zipWith and)) a b

/-- Elementwise product of a 3-D float grid with a boolean grid (True acts as 1). -/
def mulBool3 (m : List (List (List ℚ))) (b : List (List (List Bool))) :
    List (List (List ℚ)) :=
  List.zipWith (List.zipWith (List.zipWith fun v bo => if bo then v else 0)) m b

/-- Embedding of the inner `crop_mask(masks, boxes, padding=1)` of
`yolact_segm_postprocess`: builds row and column index grids by the source's
repeat/reshape pipeline — well-formed only when the spatial map is square, because
the column pipeline reshapes `h * h` elements to shape `(w, h)` — and zeroes every
pixel outside its instance's sanitized box. -/
def crop_mask (masks : List (List (List ℚ))) (boxes : List Box4) (padding : ℚ) :
    Option (List (List (List ℚ))) :=
  let h := masks.length
  let w := (masks.headD []).length
  let n := ((masks.headD []).headD []).length
  let x1 := boxes.map fun bx => (sanitize_coordinates bx.x1 bx.x2 w 0 padding).1
  let x2 := boxes.map fun bx => (sanitize_coordinates bx.x1 bx.x2 w 0 padding).2
  let y1 := boxes.map fun bx => (sanitize_coordinates bx.y1 bx.y2 h 0 padding).1
  let y2 := boxes.map fun bx => (sanitize_coordinates bx.y1 bx.y2 h 0 padding).2
  (npReshape2 (npRepeat (npArangeQ w) h) w h).bind fun rows1 =>
  (npReshape3 (npRepeatLast2 rows1 n).flatten h w n).bind fun rows2 =>
  (npReshape2 (npRepeat (npArangeQ h) h) w h).bind fun cols1 =>
  (npReshape3 (npRepeatLast2 cols1 n).flatten h w n).bind fun cols2 =>
  let rows := transpose102 rows2
  let masks_left := cmpLast rows x1 fun a bnd => decide (a ≥ bnd)
  let masks_right := cmpLast rows x2 fun a bnd => decide (a < bnd)
  let masks_up := cmpLast cols2 y1 fun a bnd => decide (a ≥ bnd)
  let masks_down := cmpLast cols2 y2 fun a bnd => decide (a < bnd)
  some (mulBool3 masks (and3 (and3 (and3 masks_left masks_right) masks_up) masks_down))

/-- Python list repetition `l * k`. -/
def listRepeat {α : Type} (l : List α) (k : ℕ) : List α := (List.replicate k l).flatten

/-- Result of `yolact_segm_postprocess`: either the value of the Python expression
`[] * 4` (list repetition of the empty list, i.e. a single flat empty list) returned
by the empty pre-filter branch, or the normal quadruple. -/
inductive YolactSegmResult : Type
  | flatList (l : List Unit)
  | quadruple (boxes : List Box4) (score : List ℚ) (classes : List ℕ) (masks : List Mask)

/-- The per-instance mask paste of `yolact_segm_postprocess`: a zero canvas of the
frame size receives a block of the resized binary mask; the target window starts at
the shifted box corner `(b_x1, b_y1)`, the source window at the no-shift corner
`(sx1, sy1)`, both with the defensive `max` height and width, and the slice clips at
the canvas extents. -/
def yolact_paste (bin : List (List ℕ)) (b_x1 b_y1 sx1 sy1 height width : ℤ)
    (h w : ℕ) : Mask :=
  fun r c =>
    if b_y1 ≤ (r:ℤ) ∧ (r:ℤ) < min (b_y1 + height) (h:ℤ) ∧
        b_x1 ≤ (c:ℤ) ∧ (c:ℤ) < min (b_x1 + width) (w:ℤ) then
      (bin.getD (sy1 + ((r:ℤ) - b_y1)).toNat []).getD (sx1 + ((c:ℤ) - b_x1)).toNat 0
    else 0

/-- The main (post-pre-filter) computation of `yolact_segm_postprocess`: prototype
projection, logistic transfer, crop, per-instance resize and binarize, in-place
shift-sanitization of the boxes, and the paste of every instance mask. -/
def yolact_segm_core (cv2resize : List (List ℚ) → ℕ → ℕ → List (List ℚ))
    (npExp : ℚ → ℚ) (boxes : List Box4) (masks : List (List ℚ)) (score : List ℚ)
    (classes : List ℕ) (proto_data : List (List (List ℚ))) (w h : ℕ)
    (shift_x shift_y : ℚ) : Option YolactSegmResult :=
  (matmul3 proto_data (transpose2 masks)).bind fun masksP =>
  (crop_mask (sigmoid3 npExp masksP) boxes 1).bind fun masksC =>
  let masksT := transpose201 masksC
  let x1c := boxes.map fun bx => ⌈(sanitize_coordinates bx.x1 bx.x2 w 0 0).1⌉
  let x2c := boxes.map fun bx => ⌈(sanitize_coordinates bx.x1 bx.x2 w 0 0).2⌉
  let y1c := boxes.map fun bx => ⌈(sanitize_coordinates bx.y1 bx.y2 h 0 0).1⌉
  let y2c := boxes.map fun bx => ⌈(sanitize_coordinates bx.y1 bx.y2 h 0 0).2⌉
  let boxes2 := boxes.map fun bx =>
    Box4.mk (sanitize_coordinates bx.x1 bx.x2 w shift_x 0).1
      (sanitize_coordinates bx.y1 bx.y2 h shift_y 0).1
      (sanitize_coordinates bx.x1 bx.x2 w shift_x 0).2
      (sanitize_coordinates bx.y1 bx.y2 h shift_y 0).2
  let ready_masks := (List.range masksT.length).map fun mask_id =>
    let bin := (cv2resize (masksT.getD mask_id []) w h).map fun row =>
      row.map fun v => if 1/2 < v then (1:ℕ) else 0
    let bx := boxes2.getD mask_id default
    let height := max (⌈bx.y2⌉ - ⌈bx.y1⌉) (y2c.getD mask_id 0 - y1c.getD mask_id 0)
    let width := max (⌈bx.x2⌉ - ⌈bx.x1⌉) (x2c.getD mask_id 0 - x1c.getD mask_id 0)
    yolact_paste bin ⌈bx.x1⌉ ⌈bx.y1⌉ (x1c.getD mask_id 0) (y1c.getD mask_id 0)
      height width h w
  some (.quadruple boxes2 score classes ready_masks)

/-- Embedding of `yolact_segm_postprocess(boxes, masks, score, classes, proto_data,
w, h, score_threshold=0, shift_x=0, shift_y=0)`.  With a positive score threshold the
four arrays are filtered by `score > score_threshold` first; if nothing survives, the
source returns `[] * 4`, which in Python is the single flat empty list. -/
def yolact_segm_postprocess (cv2resize : List (List ℚ) → ℕ → ℕ → List (List ℚ))
    (npExp : ℚ → ℚ) (boxes : List Box4) (masks : List (List ℚ)) (score : List ℚ)
    (classes : List ℕ) (proto_data : List (List (List ℚ))) (w h : ℕ)
    (score_threshold shift_x shift_y : ℚ) : Option YolactSegmResult :=
  if score_threshold > 0 then
    let keep := score.map fun sc => decide (sc > score_threshold)
    (npBoolIndex score keep).bind fun scoreF =>
    (npBoolIndex boxes keep).bind fun boxesF =>
    (npBoolIndex masks keep).bind fun masksF =>
    (npBoolIndex classes keep).bind fun classesF =>
    if scoreF.length = 0 then some (.flatList (listRepeat [] 4))
    else yolact_segm_core cv2resize npExp boxesF masksF scoreF classesF proto_data
      w h shift_x shift_y
  else
    yolact_segm_core cv2resize npExp boxes masks score classes proto_data w h
      shift_x shift_y

/-- Raw output dictionary of the prototype-mask detector: `boxes` (1×N×4),
`conf` (1×N×(C+1)), `mask` (1×N×K), `proto` (1×H×W×K). -/
structure YolactOutputs where
  boxes : List (List Box4)
  conf : List (List (List ℚ))
  mask : List (List (List ℚ))
  proto : List (List (List (List ℚ)))

/-- Embedding of `yolact_postprocess`.  Per class (background class 0 excluded),
filter by `score > conf_threshold`, sanitize, run class-wise NMS with threshold 0.5
and exclusive boundaries, then concatenate (`np.concatenate` raises on an empty
list), sort globally by descending score and hand over to `yolact_segm_postprocess`.
The `np.size(boxes) > 0` else-branch would return the raw coefficient rows as the
masks (a differently-typed result); it is unreachable because every class that
contributes has at least one kept index, and is modelled as an error. -/
def yolact_postprocess (cv2resize : List (List ℚ) → ℕ → ℕ → List (List ℚ))
    (npExp : ℚ → ℚ) (o : YolactOutputs) (scale_x scale_y : ℚ)
    (frame_height frame_width input_height input_width : ℕ) (conf_threshold : ℚ) :
    Option (List ℚ × List ℕ × List Box4 × List Mask) :=
  let boxes := o.boxes.getD 0 []
  let conf := transpose2 (o.conf.getD 0 [])
  let masks := o.mask.getD 0 []
  let proto := o.proto.getD 0 []
  let num_classes := conf.length
  let shift_x : ℚ := ((input_width : ℚ) - (frame_width : ℚ) * scale_x) / (frame_width : ℚ)
  let shift_y : ℚ := ((input_height : ℚ) - (frame_height : ℚ) * scale_y) / (frame_height : ℚ)
  let step := fun (acc : List (List ℕ) × List (List ℕ) × List (List ℚ)) (cls : ℕ) =>
    let cls_scores := conf.getD cls []
    let idxF := (List.range cls_scores.length).filter fun i =>
      decide (cls_scores.getD i 0 > conf_threshold)
    if idxF.length = 0 then acc
    else
      let scF := idxF.map fun i => cls_scores.getD i 0
      let xs := idxF.map fun i =>
        sanitize_coordinates (boxes.getD i default).x1 (boxes.getD i default).x2
          frame_width 0 0
      let ys := idxF.map fun i =>
        sanitize_coordinates (boxes.getD i default).y1 (boxes.getD i default).y2
          frame_height 0 0
      let keepN := nms (fun k => (xs.getD k (0, 0)).1) (fun k => (ys.getD k (0, 0)).1)
        (fun k => (xs.getD k (0, 0)).2) (fun k => (ys.getD k (0, 0)).2)
        (fun k => scF.getD k 0) idxF.length (1/2) false none
      (acc.1 ++ [keepN.map fun k => idxF.getD k 0],
        acc.2.1 ++ [List.replicate keepN.length cls],
        acc.2.2 ++ [keepN.map fun k => scF.getD k 0])
  let acc := ((List.range num_classes).drop 1).foldl step
    (([], [], []) : List (List ℕ) × List (List ℕ) × List (List ℚ))
  (npConcatenate acc.1).bind fun idx1 =>
  (npConcatenate acc.2.1).bind fun classes1 =>
  (npConcatenate acc.2.2).bind fun scores1 =>
  let idx2 := npArgsortDescend (fun i => scores1.getD i 0) scores1.length
  let scores2 := idx2.map fun i => scores1.getD i 0
  let idx3 := idx2.map fun i => idx1.getD i 0
  let classes2 := idx2.map fun i => classes1.getD i 0
  let boxesG := idx3.map fun i => boxes.getD i default
  let masksG := idx3.map fun i => masks.getD i []
  if 0 < boxesG.length * 4 then
    (yolact_segm_postprocess cv2resize npExp boxesG masksG scores2 classes2 proto
        frame_width frame_height 0 shift_x shift_y).bind fun res =>
      match res with
      | .flatList _ => none
      | .quadruple b s c m => some (s, c, b, m)
  else
    none

/-- Tag standing for the two postprocessor function objects stored in
`MODEL_ATTRIBUTES`. -/
inductive ModelTag : Type
  | mask_rcnn
  | yolact
deriving DecidableEq

/-- The `ModelAttributes` namedtuple: required output names and the postprocessor. -/
structure ModelAttributes where
  required_outputs : List String
  postprocessor : ModelTag
deriving DecidableEq

/-- The `MODEL_ATTRIBUTES` dictionary. -/
def MODEL_ATTRIBUTES (key : String) : Option ModelAttributes :=
  if key = "mask_rcnn" then
    some ⟨["boxes", "scores", "classes", "raw_masks"], ModelTag.mask_rcnn⟩
  else if key = "yolact" then
    some ⟨["boxes", "conf", "proto", "mask"], ModelTag.yolact⟩
  else none

/-- Network description visible to `check_model`: the named input shapes and the
declared output names. -/
structure Net where
  input_info : List (String × List ℕ)
  outputs : List String
deriving DecidableEq

/-- Python truthiness of an optional string: `None` and the empty string are falsy. -/
def pyTruthyOptStr : Option String → Bool
  | none => false
  | some s => decide (s.length ≠ 0)

/-- Python truthiness of a tuple of the given arity: a tuple is truthy exactly when
it is non-empty, regardless of its contents. -/
def pyTruthyTuple (arity : ℕ) : Bool := decide (arity ≠ 0)

/-- Embedding of `check_model(net)`.  The required-outputs assert in the source wraps
its condition and its message in one pair of parentheses, which creates a 2-tuple;
`assert` applied to that tuple tests the tuple's truthiness, and a non-empty tuple is
always truthy, so the subset condition is computed but never enforced.  That assert
is therefore modelled as a truthiness test of a 2-tuple alongside the (discarded)
computed condition. -/
def check_model (net : Net) :
    Except String (String × Option String × List ℕ × ModelTag) :=
  if ¬ (net.input_info.length ≤ 2) then
    Except.error "Demo supports only topologies with 1 or 2 inputs."
  else
    let image_inputs := (net.input_info.filter fun p => decide (p.2.length = 4)).map Prod.fst
    if ¬ (image_inputs.length = 1) then
      Except.error "Demo supports only model with single input for images"
    else
      let image_input := image_inputs.headD ""
      let info_result : Except String (Option String) :=
        if net.input_info.length = 2 then
          let infos := (net.input_info.filter fun p =>
            decide (p.2.length = 2 ∧ p.2.getLastD 0 = 3)).map Prod.fst
          if ¬ (infos.length = 1) then
            Except.error "Demo supports only model with single im_info input"
          else Except.ok (some (infos.headD ""))
        else Except.ok none
      info_result.bind fun image_info_input =>
        let model_type := if pyTruthyOptStr image_info_input then "mask_rcnn" else "yolact"
        match MODEL_ATTRIBUTES model_type with
        | none => Except.error "KeyError"
        | some attrs =>
          let _subset_holds := attrs.required_outputs.all fun r => net.outputs.contains r
          if pyTruthyTuple 2 = false then
            Except.error ("Demo supports only topologies with the following output keys: "
              ++ String.intercalate ", " attrs.required_outputs)
          else
            let input_shape := ((net.input_info.filter fun p =>
              decide (p.1 = image_input)).headD ("", [])).2
            if ¬ (input_shape.headD 0 = 1) then
              Except.error "Only batch 1 is supported by the demo application"
            else Except.ok (image_input, image_info_input, input_shape, attrs.postprocessor)

/-- C2 fails on the code: a single-4-D-input (prototype-mask) network with batch 1
whose declared outputs are missing every required name passes `check_model`
successfully — the required-outputs assert wraps condition and message in a 2-tuple,
which is always truthy — while a wrong batch size is indeed rejected. -/
theorem check_model_missing_outputs_not_caught :
    check_model ⟨[("image", [1, 3, 416, 416])], []⟩ =
      Except.ok ("image", none, [1, 3, 416, 416], ModelTag.yolact) ∧
    check_model ⟨[("image", [2, 3, 416, 416])], ["boxes", "conf", "proto", "mask"]⟩ =
      Except.error "Only batch 1 is supported by the demo application" := by
  constructor
  · rfl
  · rfl

/-- C1 fails on the code.  When no class has any score strictly above the threshold,
`yolact_postprocess` reaches `np.concatenate` on an empty list, which raises instead
of returning four empty containers (modelled as `none`); and the empty pre-filter
branch of `yolact_segm_postprocess` returns the Python expression `[] * 4`, which is
one single flat empty list, not four parallel containers. -/
theorem yolact_empty_filter_error :
    yolact_postprocess (fun m _ _ => m) (fun q => q)
      ⟨[[⟨0, 0, 1, 1⟩]], [[[0, 0]]], [[[1]]], [[[[1]]]]⟩ 1 1 4 4 4 4 1 = none ∧
    yolact_segm_postprocess (fun m _ _ => m) (fun q => q)
      [⟨0, 0, 1, 1⟩] [[1]] [0] [1] [[[1]]] 4 4 1 0 0 =
      some (YolactSegmResult.flatList []) := by
  have h1 : List.range 1 = [0] := rfl
  have h2 : List.range 2 = [0, 1] := rfl
  constructor
  · norm_num [yolact_postprocess, transpose2, npConcatenate, h1, h2, List.filter]
  · norm_num [yolact_segm_postprocess, npBoolIndex, boolKeep, listRepeat, List.filterMap]

/-- Length of a flat repeat. -/
theorem npRepeat_length {α : Type} (l : List α) (k : ℕ) :
    (npRepeat l k).length = l.length * k := by
  induction l with
  | nil => simp [npRepeat]
  | cons x xs ih =>
    simp only [npRepeat, List.length_append, List.length_replicate, ih, List.length_cons]
    ring

/-- A flat repeat is the flattening of elementwise replication. -/
theorem npRepeat_eq_flatten {α : Type} (l : List α) (k : ℕ) :
    npRepeat l k = (l.map (List.replicate k)).flatten := by
  induction l with
  | nil => rfl
  | cons x xs ih => simp [npRepeat, ih]

/-- Repeating a constant block. -/
theorem npRepeat_replicate {α : Type} (a k : ℕ) (x : α) :
    npRepeat (List.replicate a x) k = List.replicate (a * k) x := by
  induction a with
  | zero => simp [npRepeat]
  | succ a ih =>
    rw [List.replicate_succ]
    show List.replicate k x ++ npRepeat (List.replicate a x) k = _
    rw [ih, ← List.replicate_add, show k + a * k = (a + 1) * k by ring]

/-- Chunking the flattening of a uniform list of rows recovers the rows. -/
theorem chunkList_flatten {α : Type} :
    ∀ (L : List (List α)) (r c : ℕ), r = L.length → (∀ row ∈ L, row.length = c) →
      chunkList r c L.flatten = L := by
  intro L
  induction L with
  | nil =>
    intro r c hr _
    subst hr
    rfl
  | cons row L ih =>
    intro r c hr h
    subst hr
    have hrow : row.length = c := h row (by simp)
    have hL : ∀ q ∈ L, q.length = c := fun q hq => h q (by simp [hq])
    simp only [chunkList, List.length_cons, List.range_succ_eq_map, List.map_cons,
      List.map_map, List.flatten_cons]
    have hhead : ((row ++ L.flatten).drop (0 * c)).take c = row := by
      rw [Nat.zero_mul, List.drop_zero, ← hrow, List.take_left]
    have htail : ∀ i ∈ List.range L.length,
        (((row ++ L.flatten).drop (Nat.succ i * c)).take c) =
        ((L.flatten.drop (i * c)).take c) := by
      intro i _
      have hstep : Nat.succ i * c = row.length + i * c := by
        rw [Nat.succ_eq_add_one, hrow]
        ring
      rw [hstep, ← List.drop_drop, List.drop_left]
    rw [hhead]
    have hmap : (List.range L.length).map
        ((fun i => ((row ++ L.flatten).drop (i * c)).take c) ∘ Nat.succ) =
        (List.range L.length).map fun i => (L.flatten.drop (i * c)).take c :=
      List.map_congr_left htail
    rw [hmap]
    have hrec : (List.range L.length).map (fun i => (L.flatten.drop (i * c)).take c) = L := by
      have hstep := ih L.length c rfl hL
      simpa [chunkList] using hstep
    rw [hrec]

/-- Chunking a constant flat array gives constant rows. -/
theorem chunkList_replicate {α : Type} (a c : ℕ) (x : α) :
    chunkList a c (List.replicate (a * c) x) = List.replicate a (List.replicate c x) := by
  rw [chunkList]
  have hpt : ∀ i ∈ List.range a,
      (((List.replicate (a * c) x).drop (i * c)).take c) = List.replicate c x := by
    intro i hi
    have hia : i < a := List.mem_range.mp hi
    rw [List.drop_replicate, List.take_replicate]
    congr 1
    have h1 : c + i * c ≤ a * c := by
      calc c + i * c = (i + 1) * c := by ring
        _ ≤ a * c := Nat.mul_le_mul_right c hia
    exact min_eq_left (Nat.le_sub_of_add_le h1)
  rw [List.map_congr_left hpt, List.map_const', List.length_range]

/-- Flattened size of a chunking of exact size. -/
theorem chunkList_flatten_length {α : Type} (r c : ℕ) (l : List α) (h : l.length = r * c) :
    (chunkList r c l).flatten.length = r * c := by
  rw [List.length_flatten, chunkList, List.map_map]
  have hpt : (List.range r).map (List.length ∘ fun i => (l.drop (i * c)).take c)
      = (List.range r).map fun _ => c := by
    apply List.map_congr_left
    intro i hi
    have hir : i < r := List.mem_range.mp hi
    show ((l.drop (i * c)).take c).length = c
    rw [List.length_take, List.length_drop, h]
    have h1 : c + i * c ≤ r * c := by
      calc c + i * c = (i + 1) * c := by ring
        _ ≤ r * c := Nat.mul_le_mul_right c hir
    exact min_eq_left (Nat.le_sub_of_add_le h1)
  rw [hpt, List.map_const', List.length_range, List.sum_replicate, smul_eq_mul]

/-- Flattened size of a last-axis repeat. -/
theorem npRepeatLast2_flatten_length {α : Type} (m : List (List α)) (k : ℕ) :
    (npRepeatLast2 m k).flatten.length = m.flatten.length * k := by
  induction m with
  | nil => simp [npRepeatLast2]
  | cons r rest ih =>
    show (npRepeat r k ++ (npRepeatLast2 rest k).flatten).length = _
    rw [List.length_append, npRepeat_length, ih]
    show r.length * k + rest.flatten.length * k = (r ++ rest.flatten).length * k
    rw [List.length_append]
    ring

/-- Closed form of the first reshape of the source's index-grid pipeline. -/
theorem grid_reshape2 (h : ℕ) :
    npReshape2 (npRepeat (npArangeQ h) h) h h =
      some ((List.range h).map fun i : ℕ => List.replicate h ((i:ℚ))) := by
  have hlen : (npRepeat (npArangeQ h) h).length = h * h := by
    rw [npRepeat_length, npArangeQ, List.length_map, List.length_range]
  rw [npReshape2, if_pos hlen]
  congr 1
  rw [npRepeat_eq_flatten, npArangeQ, List.map_map]
  have hcomp : (List.range h).map (List.replicate h ∘ fun i : ℕ => ((i:ℚ))) =
      (List.range h).map fun i : ℕ => List.replicate h ((i:ℚ)) := rfl
  rw [hcomp]
  exact chunkList_flatten ((List.range h).map fun i : ℕ => List.replicate h ((i:ℚ))) h h
    (by rw [List.length_map, List.length_range])
    (by
      intro row hrow
      obtain ⟨i, _, rfl⟩ := List.mem_map.mp hrow
      simp)

/-- Closed form of the second reshape of the source's index-grid pipeline in the
square case. -/
theorem grid_reshape3 (h n : ℕ) :
    npReshape3
        (npRepeatLast2 ((List.range h).map fun i : ℕ => List.replicate h ((i:ℚ))) n).flatten
        h h n =
      some ((List.range h).map fun i : ℕ => List.replicate h (List.replicate n ((i:ℚ)))) := by
  have hrl : npRepeatLast2 ((List.range h).map fun i : ℕ => List.replicate h ((i:ℚ))) n
      = (List.range h).map fun i : ℕ => List.replicate (h * n) ((i:ℚ)) := by
    rw [npRepeatLast2, List.map_map]
    apply List.map_congr_left
    intro i _
    exact npRepeat_replicate h n ((i:ℚ))
  rw [hrl]
  have hflen : (((List.range h).map fun i : ℕ => List.replicate (h * n) ((i:ℚ))).flatten).length
      = h * h * n := by
    rw [List.length_flatten, List.map_map]
    have hpt : (List.range h).map (List.length ∘ fun i : ℕ => List.replicate (h * n) ((i:ℚ)))
        = (List.range h).map fun _ => h * n := by
      apply List.map_congr_left
      intro i _
      simp
    rw [hpt, List.map_const', List.length_range, List.sum_replicate, smul_eq_mul]
    ring
  rw [npReshape3, if_pos hflen]
  congr 1
  have hchunk : chunkList h (h * n)
      (((List.range h).map fun i : ℕ => List.replicate (h * n) ((i:ℚ))).flatten)
      = (List.range h).map fun i : ℕ => List.replicate (h * n) ((i:ℚ)) :=
    chunkList_flatten _ h (h * n) (by rw [List.length_map, List.length_range])
      (by
        intro row hrow
        obtain ⟨i, _, rfl⟩ := List.mem_map.mp hrow
        simp)
  rw [hchunk, List.map_map]
  apply List.map_congr_left
  intro i _
  exact chunkList_replicate h n ((i:ℚ))

/-- Closed form of the transposed row grid: entry `(a, b, k)` holds the column
index `b`. -/
theorem transpose102_grid (h n : ℕ) :
    transpose102 ((List.range h).map fun i : ℕ => List.replicate h (List.replicate n ((i:ℚ))))
      = (List.range h).map fun _ => (List.range h).map fun i : ℕ => List.replicate n ((i:ℚ)) := by
  rw [transpose102]
  have hlen : ((((List.range h).map fun i : ℕ =>
      List.replicate h (List.replicate n ((i:ℚ)))).headD []).length) = h := by
    cases h with
    | zero => rfl
    | succ m =>
      rw [List.range_succ_eq_map]
      simp
  rw [hlen]
  apply List.map_congr_left
  intro a ha
  have ham : a < h := List.mem_range.mp ha
  rw [List.map_map]
  apply List.map_congr_left
  intro i _
  show (List.replicate h (List.replicate n ((i:ℚ)))).getD a [] = List.replicate n ((i:ℚ))
  rw [List.getD_eq_getElem _ _ (by simpa using ham), List.getElem_replicate]

/-- Reading a zipWith by index with defaults. -/
theorem getD_zipWith_lt {α β γ : Type} (f : α → β → γ) (l1 : List α) (l2 : List β)
    (i : ℕ) (h1 : i < l1.length) (h2 : i < l2.length) (d : γ) (d1 : α) (d2 : β) :
    (List.zipWith f l1 l2).getD i d = f (l1.getD i d1) (l2.getD i d2) := by
  have hz : i < (List.zipWith f l1 l2).length := by
    rw [List.length_zipWith]
    exact lt_min h1 h2
  rw [List.getD_eq_getElem _ _ hz, List.getD_eq_getElem _ _ h1, List.getD_eq_getElem _ _ h2,
    List.getElem_zipWith]

/-- Reading a map over a range by index. -/
theorem getD_range_map {β : Type} (g : ℕ → β) (h i : ℕ) (hi : i < h) (d : β) :
    ((List.range h).map g).getD i d = g i := by
  rw [getD_map_lt g (List.range h) i (by simpa using hi) d 0]
  congr 1
  rw [List.getD_eq_getElem _ _ (by simpa using hi), List.getElem_range]

/-- Reading a replicate by index. -/
theorem getD_replicate_lt {β : Type} (x : β) (n i : ℕ) (hi : i < n) (d : β) :
    (List.replicate n x).getD i d = x := by
  rw [List.getD_eq_getElem _ _ (by simpa using hi), List.getElem_replicate]

/-- The head read with a default is the index-0 read. -/
theorem headD_eq_getD {β : Type} (l : List β) (d : β) : l.headD d = l.getD 0 d := by
  cases l <;> rfl

/-- Proof abbreviation: the boolean membership grid that the source's repeat/reshape
pipeline produces on a square `H × H × N` spatial map — entry `(a, b, k)` tests pixel
`(a, b)` against instance `k`'s sanitized (padding 1) box. -/
def cropGridSquare (boxes : List Box4) (H N : ℕ) : List (List (List Bool)) :=
  let x1 := boxes.map fun bx => (sanitize_coordinates bx.x1 bx.x2 H 0 1).1
  let x2 := boxes.map fun bx => (sanitize_coordinates bx.x1 bx.x2 H 0 1).2
  let y1 := boxes.map fun bx => (sanitize_coordinates bx.y1 bx.y2 H 0 1).1
  let y2 := boxes.map fun bx => (sanitize_coordinates bx.y1 bx.y2 H 0 1).2
  let rows := (List.range H).map fun _ =>
    (List.range H).map fun i : ℕ => List.replicate N ((i:ℚ))
  let cols := (List.range H).map fun i : ℕ =>
    List.replicate H (List.replicate N ((i:ℚ)))
  and3 (and3 (and3 (cmpLast rows x1 fun a bnd => decide (a ≥ bnd))
    (cmpLast rows x2 fun a bnd => decide (a < bnd)))
    (cmpLast cols y1 fun a bnd => decide (a ≥ bnd)))
    (cmpLast cols y2 fun a bnd => decide (a < bnd))

/-- On a square spatial map, `crop_mask` succeeds and multiplies the map with the
membership grid. -/
theorem crop_mask_square_eq (masks : List (List (List ℚ))) (boxes : List Box4)
    (H N : ℕ) (hH : 0 < H) (hlen : masks.length = H)
    (hrow : ∀ row ∈ masks, row.length = H)
    (hinner : ∀ row ∈ masks, ∀ inner ∈ row, inner.length = N) :
    crop_mask masks boxes 1 = some (mulBool3 masks (cropGridSquare boxes H N)) := by
  have hw : (masks.headD []).length = H := by
    cases masks with
    | nil => simp at hlen; omega
    | cons m0 rest => exact hrow m0 (by simp)
  have hn : ((masks.headD []).headD []).length = N := by
    cases masks with
    | nil => simp at hlen; omega
    | cons m0 rest =>
      have hm0 : m0.length = H := hrow m0 (by simp)
      cases m0 with
      | nil => simp at hm0; omega
      | cons i0 irest => exact hinner (i0 :: irest) (by simp) i0 (by simp)
  simp only [crop_mask]
  rw [hlen, hw, hn]
  simp only [grid_reshape2, grid_reshape3, Option.bind]
  rw [transpose102_grid]
  rfl

/-- A zipWith of two maps over the same range is a map of the combined function. -/
theorem zipWith_range_map {α β γ : Type} (f : α → β → γ) (g1 : ℕ → α) (g2 : ℕ → β) (n : ℕ) :
    List.zipWith f ((List.range n).map g1) ((List.range n).map g2) =
      (List.range n).map fun i => f (g1 i) (g2 i) := by
  rw [List.zipWith_map, List.zipWith_same]

/-- A replicate is the constant map over a range. -/
theorem replicate_eq_range_map {α : Type} (n : ℕ) (x : α) :
    List.replicate n x = (List.range n).map fun _ => x := by
  rw [List.map_const', List.length_range]

/-- Any map is the index map over the range of its length. -/
theorem list_map_eq_range_map {α β : Type} (l : List α) (f : α → β) (d : α) :
    l.map f = (List.range l.length).map fun i => f (l.getD i d) := by
  induction l with
  | nil => rfl
  | cons x xs ih =>
    rw [List.map_cons, List.length_cons, List.range_succ_eq_map, List.map_cons,
      List.map_map, ih]
    rfl

/-- Closed form of the square membership grid: a triple index map computing the
four-inequality test directly (column bounds from x, row bounds from y). -/
theorem cropGridSquare_eq_spec (boxes : List Box4) (H N : ℕ) (hbox : boxes.length = N) :
    cropGridSquare boxes H N =
      (List.range H).map fun a : ℕ => (List.range H).map fun b : ℕ =>
        (List.range N).map fun k : ℕ =>
          (decide ((b:ℚ) ≥ (sanitize_coordinates (boxes.getD k default).x1
              (boxes.getD k default).x2 H 0 1).1) &&
            decide ((b:ℚ) < (sanitize_coordinates (boxes.getD k default).x1
              (boxes.getD k default).x2 H 0 1).2) &&
            decide ((a:ℚ) ≥ (sanitize_coordinates (boxes.getD k default).y1
              (boxes.getD k default).y2 H 0 1).1) &&
            decide ((a:ℚ) < (sanitize_coordinates (boxes.getD k default).y1
              (boxes.getD k default).y2 H 0 1).2)) := by
  have hx1 : boxes.map (fun bx => (sanitize_coordinates bx.x1 bx.x2 H 0 1).1)
      = (List.range N).map fun k => (sanitize_coordinates (boxes.getD k default).x1
          (boxes.getD k default).x2 H 0 1).1 := by
    rw [list_map_eq_range_map boxes _ default, hbox]
  have hx2 : boxes.map (fun bx => (sanitize_coordinates bx.x1 bx.x2 H 0 1).2)
      = (List.range N).map fun k => (sanitize_coordinates (boxes.getD k default).x1
          (boxes.getD k default).x2 H 0 1).2 := by
    rw [list_map_eq_range_map boxes _ default, hbox]
  have hy1 : boxes.map (fun bx => (sanitize_coordinates bx.y1 bx.y2 H 0 1).1)
      = (List.range N).map fun k => (sanitize_coordinates (boxes.getD k default).y1
          (boxes.getD k default).y2 H 0 1).1 := by
    rw [list_map_eq_range_map boxes _ default, hbox]
  have hy2 : boxes.map (fun bx => (sanitize_coordinates bx.y1 bx.y2 H 0 1).2)
      = (List.range N).map fun k => (sanitize_coordinates (boxes.getD k default).y1
          (boxes.getD k default).y2 H 0 1).2 := by
    rw [list_map_eq_range_map boxes _ default, hbox]
  simp only [cropGridSquare]
  rw [hx1, hx2, hy1, hy2]
  simp only [cmpLast, and3, List.map_map, List.map_replicate, replicate_eq_range_map,
    Function.comp, zipWith_range_map]

/-- Pixel `(a, b)` of instance `k` after the square crop: the map value where the
membership test passes, else 0. -/
theorem crop_out_getD (masks : List (List (List ℚ))) (boxes : List Box4) (H N : ℕ)
    (hlen : masks.length = H) (hrow : ∀ row ∈ masks, row.length = H)
    (hinner : ∀ row ∈ masks, ∀ inner ∈ row, inner.length = N)
    (hbox : boxes.length = N) (a b k : ℕ) (ha : a < H) (hb : b < H) (hk : k < N) :
    (((mulBool3 masks (cropGridSquare boxes H N)).getD a []).getD b []).getD k 0 =
      if ((b:ℚ) ≥ (sanitize_coordinates (boxes.getD k default).x1
            (boxes.getD k default).x2 H 0 1).1 ∧
          (b:ℚ) < (sanitize_coordinates (boxes.getD k default).x1
            (boxes.getD k default).x2 H 0 1).2 ∧
          (a:ℚ) ≥ (sanitize_coordinates (boxes.getD k default).y1
            (boxes.getD k default).y2 H 0 1).1 ∧
          (a:ℚ) < (sanitize_coordinates (boxes.getD k default).y1
            (boxes.getD k default).y2 H 0 1).2)
      then ((masks.getD a []).getD b []).getD k 0 else 0 := by
  have hG := cropGridSquare_eq_spec boxes H N hbox
  have hma : masks.getD a [] ∈ masks := by
    rw [List.getD_eq_getElem masks [] (show a < masks.length by omega)]
    exact List.getElem_mem (show a < masks.length by omega)
  have hrowa : (masks.getD a []).length = H := hrow _ hma
  have hmab : (masks.getD a []).getD b [] ∈ masks.getD a [] := by
    rw [List.getD_eq_getElem (masks.getD a []) []
      (show b < (masks.getD a []).length by omega)]
    exact List.getElem_mem (show b < (masks.getD a []).length by omega)
  have hlab : ((masks.getD a []).getD b []).length = N := hinner _ hma _ hmab
  have h1 : (mulBool3 masks (cropGridSquare boxes H N)).getD a [] =
      List.zipWith (List.zipWith fun v bo => if bo then v else 0) (masks.getD a [])
        ((cropGridSquare boxes H N).getD a []) :=
    getD_zipWith_lt _ masks _ a (by rw [hlen]; exact ha)
      (by rw [hG, List.length_map, List.length_range]; exact ha) [] [] []
  have hGa : (cropGridSquare boxes H N).getD a [] =
      (List.range H).map fun b : ℕ => (List.range N).map fun k : ℕ =>
        (decide ((b:ℚ) ≥ (sanitize_coordinates (boxes.getD k default).x1
            (boxes.getD k default).x2 H 0 1).1) &&
          decide ((b:ℚ) < (sanitize_coordinates (boxes.getD k default).x1
            (boxes.getD k default).x2 H 0 1).2) &&
          decide ((a:ℚ) ≥ (sanitize_coordinates (boxes.getD k default).y1
            (boxes.getD k default).y2 H 0 1).1) &&
          decide ((a:ℚ) < (sanitize_coordinates (boxes.getD k default).y1
            (boxes.getD k default).y2 H 0 1).2)) := by
    rw [hG]
    exact getD_range_map _ H a ha []
  rw [h1, hGa]
  have h2 : (List.zipWith (List.zipWith fun v bo => if bo then v else 0) (masks.getD a [])
      ((List.range H).map fun b : ℕ => (List.range N).map fun k : ℕ =>
        (decide ((b:ℚ) ≥ (sanitize_coordinates (boxes.getD k default).x1
            (boxes.getD k default).x2 H 0 1).1) &&
          decide ((b:ℚ) < (sanitize_coordinates (boxes.getD k default).x1
            (boxes.getD k default).x2 H 0 1).2) &&
          decide ((a:ℚ) ≥ (sanitize_coordinates (boxes.getD k default).y1
            (boxes.getD k default).y2 H 0 1).1) &&
          decide ((a:ℚ) < (sanitize_coordinates (boxes.getD k default).y1
            (boxes.getD k default).y2 H 0 1).2)))).getD b [] =
      List.zipWith (fun v bo => if bo then v else 0) ((masks.getD a []).getD b [])
        ((List.range N).map fun k : ℕ =>
          (decide ((b:ℚ) ≥ (sanitize_coordinates (boxes.getD k default).x1
              (boxes.getD k default).x2 H 0 1).1) &&
            decide ((b:ℚ) < (sanitize_coordinates (boxes.getD k default).x1
              (boxes.getD k default).x2 H 0 1).2) &&
            decide ((a:ℚ) ≥ (sanitize_coordinates (boxes.getD k default).y1
              (boxes.getD k default).y2 H 0 1).1) &&
            decide ((a:ℚ) < (sanitize_coordinates (boxes.getD k default).y1
              (boxes.getD k default).y2 H 0 1).2))) := by
    rw [getD_zipWith_lt _ _ _ b (by rw [hrowa]; exact hb)
      (by rw [List.length_map, List.length_range]; exact hb) [] [] []]
    congr 1
    exact getD_range_map _ H b hb []
  rw [h2]
  rw [getD_zipWith_lt _ _ _ k (by rw [hlab]; exact hk)
    (by rw [List.length_map, List.length_range]; exact hk) 0 0 false]
  rw [getD_range_map _ N k hk false]
  show (if (_ && _ && _ && _) = true then _ else 0) = _
  have hiff : ((decide ((b:ℚ) ≥ (sanitize_coordinates (boxes.getD k default).x1
        (boxes.getD k default).x2 H 0 1).1) &&
      decide ((b:ℚ) < (sanitize_coordinates (boxes.getD k default).x1
        (boxes.getD k default).x2 H 0 1).2) &&
      decide ((a:ℚ) ≥ (sanitize_coordinates (boxes.getD k default).y1
        (boxes.getD k default).y2 H 0 1).1) &&
      decide ((a:ℚ) < (sanitize_coordinates (boxes.getD k default).y1
        (boxes.getD k default).y2 H 0 1).2)) = true) ↔
      ((b:ℚ) ≥ (sanitize_coordinates (boxes.getD k default).x1
          (boxes.getD k default).x2 H 0 1).1 ∧
        (b:ℚ) < (sanitize_coordinates (boxes.getD k default).x1
          (boxes.getD k default).x2 H 0 1).2 ∧
        (a:ℚ) ≥ (sanitize_coordinates (boxes.getD k default).y1
          (boxes.getD k default).y2 H 0 1).1 ∧
        (a:ℚ) < (sanitize_coordinates (boxes.getD k default).y1
          (boxes.getD k default).y2 H 0 1).2) := by
    simp [Bool.and_eq_true, decide_eq_true_eq, and_assoc]
  exact if_congr hiff rfl rfl

/-- Innermost length of a masked grid product, read at the head. -/
theorem mulBool3_inner_length (m : List (List (List ℚ))) (g : List (List (List Bool)))
    (hm : 0 < m.length) (hg : 0 < g.length)
    (hm0 : 0 < (m.getD 0 []).length) (hg0 : 0 < (g.getD 0 []).length) :
    (((mulBool3 m g).headD []).headD []).length =
      min ((m.getD 0 []).getD 0 []).length ((g.getD 0 []).getD 0 []).length := by
  rw [headD_eq_getD, headD_eq_getD]
  have h1 : (mulBool3 m g).getD 0 [] =
      List.zipWith (List.zipWith fun v bo => if bo then v else 0) (m.getD 0 [])
        (g.getD 0 []) :=
    getD_zipWith_lt _ m g 0 hm hg [] [] []
  have h2 : (List.zipWith (List.zipWith fun v bo => if bo then v else 0) (m.getD 0 [])
      (g.getD 0 [])).getD 0 [] =
      List.zipWith (fun v bo => if bo then v else 0) ((m.getD 0 []).getD 0 [])
        ((g.getD 0 []).getD 0 []) :=
    getD_zipWith_lt _ _ _ 0 hm0 hg0 [] [] []
  rw [h1, h2, List.length_zipWith]

/-- Shape of the square crop output: `H` rows, and the innermost (instance) axis has
length `N`. -/
theorem crop_out_shape (masks : List (List (List ℚ))) (boxes : List Box4) (H N : ℕ)
    (hH : 0 < H) (hlen : masks.length = H) (hrow : ∀ row ∈ masks, row.length = H)
    (hinner : ∀ row ∈ masks, ∀ inner ∈ row, inner.length = N)
    (hbox : boxes.length = N) :
    (mulBool3 masks (cropGridSquare boxes H N)).length = H ∧
    (((mulBool3 masks (cropGridSquare boxes H N)).headD []).headD []).length = N := by
  have hG := cropGridSquare_eq_spec boxes H N hbox
  have hGlen : (cropGridSquare boxes H N).length = H := by
    rw [hG, List.length_map, List.length_range]
  have hma : masks.getD 0 [] ∈ masks := by
    rw [List.getD_eq_getElem masks [] (show 0 < masks.length by omega)]
    exact List.getElem_mem (show 0 < masks.length by omega)
  have hrowa : (masks.getD 0 []).length = H := hrow _ hma
  have hmab : (masks.getD 0 []).getD 0 [] ∈ masks.getD 0 [] := by
    rw [List.getD_eq_getElem (masks.getD 0 []) []
      (show 0 < (masks.getD 0 []).length by omega)]
    exact List.getElem_mem (show 0 < (masks.getD 0 []).length by omega)
  have hlab : ((masks.getD 0 []).getD 0 []).length = N := hinner _ hma _ hmab
  have hg00 : (((cropGridSquare boxes H N).getD 0 []).getD 0 []).length = N := by
    rw [hG, getD_range_map _ H 0 hH []]
    rw [getD_range_map _ H 0 hH []]
    rw [List.length_map, List.length_range]
  have hgrow : 0 < ((cropGridSquare boxes H N).getD 0 []).length := by
    rw [hG, getD_range_map _ H 0 hH [], List.length_map, List.length_range]
    exact hH
  constructor
  · rw [mulBool3, List.length_zipWith, hlen, hGlen, min_self]
  · rw [mulBool3_inner_length masks (cropGridSquare boxes H N) (by omega)
      (by omega) (by omega) hgrow, hlab, hg00, min_self]

/-- On a non-square spatial map the column-grid reshape of `crop_mask` fails: `h * h`
elements cannot take shape `(w, h)`. -/
theorem crop_mask_nonsquare_none (masks : List (List (List ℚ))) (boxes : List Box4)
    (H W : ℕ) (hH : 0 < H) (hneq : H ≠ W) (hlen : masks.length = H)
    (hrow : ∀ row ∈ masks, row.length = W) :
    crop_mask masks boxes 1 = none := by
  have hw : (masks.headD []).length = W := by
    cases masks with
    | nil => simp at hlen; omega
    | cons m0 rest => exact hrow m0 (by simp)
  have h1 : (npRepeat (npArangeQ W) H).length = W * H := by
    rw [npRepeat_length, npArangeQ, List.length_map, List.length_range]
  have hr2 : npReshape2 (npRepeat (npArangeQ W) H) W H =
      some (chunkList W H (npRepeat (npArangeQ W) H)) := by
    rw [npReshape2, if_pos h1]
  have hr3len : ∀ nv : ℕ,
      ((npRepeatLast2 (chunkList W H (npRepeat (npArangeQ W) H)) nv).flatten).length
        = H * W * nv := by
    intro nv
    rw [npRepeatLast2_flatten_length, chunkList_flatten_length W H _ h1]
    ring
  have h2 : (npRepeat (npArangeQ H) H).length = H * H := by
    rw [npRepeat_length, npArangeQ, List.length_map, List.length_range]
  have hneq2 : ¬ ((npRepeat (npArangeQ H) H).length = W * H) := by
    rw [h2]
    intro hcon
    exact hneq (Nat.mul_right_cancel hH hcon)
  simp only [crop_mask]
  rw [hlen, hw, hr2]
  simp only [Option.bind]
  rw [npReshape3, if_pos (hr3len _)]
  simp only [Option.bind]
  rw [npReshape2, if_neg hneq2]

/-- C10: the per-pixel crop of the prototype-mask variant is total exactly on square
prototype spatial maps.  For an `H × W × N` map with `H = W` the index grids are
well-formed and each output pixel is the input pixel multiplied by the
four-inequality membership test against its instance's sanitized box; for `H ≠ W`
the column-grid construction is invalid (`H * H` elements reshaped to `(W, H)`), so
squareness is an unstated precondition of the whole prototype pipeline. -/
theorem crop_mask_square_total (masks : List (List (List ℚ))) (boxes : List Box4)
    (H W N : ℕ) (hH : 0 < H) (hlen : masks.length = H)
    (hrow : ∀ row ∈ masks, row.length = W)
    (hinner : ∀ row ∈ masks, ∀ inner ∈ row, inner.length = N)
    (hbox : boxes.length = N) :
    (H = W → ∃ out, crop_mask masks boxes 1 = some out ∧
      ∀ a b k, a < H → b < H → k < N →
        ((out.getD a []).getD b []).getD k 0 =
          if ((b:ℚ) ≥ (sanitize_coordinates (boxes.getD k default).x1
                (boxes.getD k default).x2 H 0 1).1 ∧
              (b:ℚ) < (sanitize_coordinates (boxes.getD k default).x1
                (boxes.getD k default).x2 H 0 1).2 ∧
              (a:ℚ) ≥ (sanitize_coordinates (boxes.getD k default).y1
                (boxes.getD k default).y2 H 0 1).1 ∧
              (a:ℚ) < (sanitize_coordinates (boxes.getD k default).y1
                (boxes.getD k default).y2 H 0 1).2)
          then ((masks.getD a []).getD b []).getD k 0 else 0) ∧
    (H ≠ W → crop_mask masks boxes 1 = none) := by
  constructor
  · intro hEq
    subst hEq
    exact ⟨_, crop_mask_square_eq masks boxes H N hH hlen hrow hinner,
      fun a b k ha hb hk => crop_out_getD masks boxes H N hlen hrow hinner hbox a b k ha hb hk⟩
  · intro hneq
    exact crop_mask_nonsquare_none masks boxes H W hH hneq hlen hrow

/-- Witness for C10 on a concrete square 2×2×1 map. -/
theorem crop_mask_square_total_witness :
    (0:ℕ) < 2 ∧ ∃ out, crop_mask [[[(1:ℚ)], [2]], [[3], [4]]] [⟨0, 0, 1, 1⟩] 1 = some out := by
  refine ⟨by norm_num, ?_⟩
  obtain ⟨out, hout, _⟩ := (crop_mask_square_total [[[(1:ℚ)], [2]], [[3], [4]]]
    [⟨0, 0, 1, 1⟩] 2 2 1 (by norm_num) (by norm_num)
    (by intro row hrow; simp at hrow; rcases hrow with h | h <;> simp [h])
    (by
      intro row hrow inner hinner
      simp at hrow
      rcases hrow with h | h <;> subst h <;> simp at hinner <;>
        rcases hinner with h2 | h2 <;> simp [h2])
    (by norm_num)).1 rfl
  exact ⟨out, hout⟩

/-- Elements of a boolean-filtered list come from the original list. -/
theorem mem_boolKeep {α : Type} {x : α} {l : List α} {f : List Bool}
    (h : x ∈ boolKeep l f) : x ∈ l := by
  rw [boolKeep] at h
  obtain ⟨p, hp, hpx⟩ := List.mem_filterMap.mp h
  have hx : p.1 = x := by
    by_cases hb : p.2 <;> simp [hb] at hpx
    exact hpx
  exact hx ▸ (List.of_mem_zip hp).1

/-- Boolean filters of parallel lists of equal length have equal lengths. -/
theorem boolKeep_length_congr {α β : Type} :
    ∀ (f : List Bool) (l1 : List α) (l2 : List β), l1.length = l2.length →
      (boolKeep l1 f).length = (boolKeep l2 f).length := by
  intro f
  induction f with
  | nil =>
    intro l1 l2 _
    simp [boolKeep]
  | cons b f ih =>
    intro l1 l2 h
    cases l1 with
    | nil =>
      cases l2 with
      | nil => rfl
      | cons y l2 => simp at h
    | cons x l1 =>
      cases l2 with
      | nil => simp at h
      | cons y l2 =>
        have hrec := ih l1 l2 (by simpa using h)
        simp only [boolKeep, List.zip_cons_cons, List.filterMap_cons] at *
        cases b <;> simp [hrec]

/-- Successful matrix product: the contracted lengths agree, so the source's
`proto_data @ masks.T` yields the explicit triple map. -/
theorem matmul3_some (proto : List (List (List ℚ))) (mT : List (List ℚ))
    (h : ∀ row ∈ proto, ∀ inner ∈ row, inner.length = mT.length) :
    matmul3 proto mT = some (proto.map fun row => row.map fun inner =>
      (List.range (mT.headD []).length).map fun nIdx =>
        ((List.range mT.length).map fun k => inner.getD k 0 * (mT.getD k []).getD nIdx 0).sum) := by
  rw [matmul3, if_pos]
  rw [List.all_eq_true]
  intro row hrow
  rw [List.all_eq_true]
  intro inner hinner
  exact decide_eq_true (h row hrow inner hinner)

/-- Head of a nonempty range map. -/
theorem headD_range_map {β : Type} (g : ℕ → β) (h : ℕ) (hh : 0 < h) (d : β) :
    ((List.range h).map g).headD d = g 0 := by
  rw [headD_eq_getD, getD_range_map g h 0 hh d]

/-- Length discipline of the post-filter prototype-mask computation: whenever
`yolact_segm_core` returns a quadruple, its four sequences have equal length. -/
theorem yolact_segm_core_lengths (cv2resize : List (List ℚ) → ℕ → ℕ → List (List ℚ))
    (npExp : ℚ → ℚ) (boxes : List Box4) (masks : List (List ℚ)) (score : List ℚ)
    (classes : List ℕ) (proto : List (List (List ℚ))) (w h : ℕ) (sx sy : ℚ)
    (H K : ℕ) (hK : 0 < K) (hH : 0 < H)
    (hbs : boxes.length = score.length) (hms : masks.length = score.length)
    (hcs : classes.length = score.length)
    (hmK : ∀ row ∈ masks, row.length = K)
    (hp1 : proto.length = H) (hp2 : ∀ row ∈ proto, row.length = H)
    (hp3 : ∀ row ∈ proto, ∀ inner ∈ row, inner.length = K) :
    ∀ rb rs rc rm, yolact_segm_core cv2resize npExp boxes masks score classes proto
        w h sx sy = some (.quadruple rb rs rc rm) →
      rb.length = rs.length ∧ rs.length = rc.length ∧ rc.length = rm.length := by
  intro rb rs rc rm heq
  cases masks with
  | nil =>
    have hn0 : score.length = 0 := by simpa using hms.symm
    have hmatnone : matmul3 proto (transpose2 []) = none := by
      rw [matmul3, if_neg]
      intro hall
      rw [List.all_eq_true] at hall
      have hne : proto ≠ [] := by
        intro hE
        rw [hE] at hp1
        simp at hp1
        omega
      have hrow := List.head_mem hne
      have hrowlen : (proto.head hne).length = H := hp2 _ hrow
      have hrowne : proto.head hne ≠ [] := by
        intro hE
        rw [hE] at hrowlen
        simp at hrowlen
        omega
      have hinner := List.head_mem hrowne
      have hKlen : ((proto.head hne).head hrowne).length = K := hp3 _ hrow _ hinner
      have hcond := hall _ hrow
      rw [List.all_eq_true] at hcond
      have := hcond _ hinner
      have htr : transpose2 ([] : List (List ℚ)) = [] := by simp [transpose2]
      rw [htr] at this
      rw [decide_eq_true_eq] at this
      rw [hKlen, List.length_nil] at this
      omega
    simp only [yolact_segm_core] at heq
    rw [hmatnone] at heq
    simp at heq
  | cons m0 mrest =>
    have hm0 : m0.length = K := hmK m0 (by simp)
    have hT : transpose2 (m0 :: mrest) =
        (List.range K).map fun j => (m0 :: mrest).map fun row => row.getD j 0 := by
      rw [transpose2, show (((m0 :: mrest).headD []).length) = K from hm0]
    have hTlen : (transpose2 (m0 :: mrest)).length = K := by
      rw [hT, List.length_map, List.length_range]
    have hThead : ((transpose2 (m0 :: mrest)).headD []) =
        (m0 :: mrest).map fun row => row.getD 0 0 := by
      rw [hT]
      exact headD_range_map _ K hK []
    have hN : ((transpose2 (m0 :: mrest)).headD []).length = score.length := by
      rw [hThead, List.length_map]
      exact hms
    have hcontract : ∀ row ∈ proto, ∀ inner ∈ row,
        inner.length = (transpose2 (m0 :: mrest)).length := by
      intro row hr inner hi
      rw [hTlen]
      exact hp3 row hr inner hi
    have hmat := matmul3_some proto (transpose2 (m0 :: mrest)) hcontract
    set matOut := proto.map fun row => row.map fun inner =>
      (List.range ((transpose2 (m0 :: mrest)).headD []).length).map fun nIdx =>
        ((List.range (transpose2 (m0 :: mrest)).length).map fun k =>
          inner.getD k 0 * ((transpose2 (m0 :: mrest)).getD k []).getD nIdx 0).sum
      with hmatOutDef
    have hml : matOut.length = H := by
      rw [hmatOutDef, List.length_map, hp1]
    have hsl : (sigmoid3 npExp matOut).length = H := by
      rw [sigmoid3, List.length_map, hml]
    have hsrow : ∀ row ∈ sigmoid3 npExp matOut, row.length = H := by
      intro row hrow
      simp only [sigmoid3, List.mem_map] at hrow
      obtain ⟨r1, h1, rfl⟩ := hrow
      rw [List.length_map]
      rw [hmatOutDef] at h1
      obtain ⟨prow, hp, rfl⟩ := List.mem_map.mp h1
      rw [List.length_map]
      exact hp2 prow hp
    have hsinner : ∀ row ∈ sigmoid3 npExp matOut, ∀ inner ∈ row,
        inner.length = score.length := by
      intro row hrow inner hinner
      simp only [sigmoid3, List.mem_map] at hrow
      obtain ⟨r1, h1, rfl⟩ := hrow
      obtain ⟨i1, hi1, rfl⟩ := List.mem_map.mp hinner
      rw [List.length_map]
      rw [hmatOutDef] at h1
      obtain ⟨prow, hp, rfl⟩ := List.mem_map.mp h1
      obtain ⟨i2, hi2, rfl⟩ := List.mem_map.mp hi1
      rw [List.length_map, List.length_range]
      exact hN
    have hboxn : boxes.length = score.length := hbs
    have hcrop := crop_mask_square_eq (sigmoid3 npExp matOut) boxes H score.length hH hsl
      hsrow hsinner
    have hshape := crop_out_shape (sigmoid3 npExp matOut) boxes H score.length hH hsl
      hsrow hsinner hboxn
    simp only [yolact_segm_core] at heq
    rw [hmat] at heq
    simp only [Option.bind] at heq
    rw [hcrop] at heq
    simp only [Option.bind, Option.some.injEq] at heq
    have hready : (transpose201 (mulBool3 (sigmoid3 npExp matOut)
        (cropGridSquare boxes H score.length))).length = score.length := by
      rw [transpose201, List.length_map, List.length_range]
      exact hshape.2
    cases heq with
    | refl =>
      refine ⟨?_, ?_, ?_⟩
      · rw [List.length_map, hbs]
      · exact hcs.symm
      · rw [hcs, List.length_map, List.length_range, hready]

/-- C5: Parallel-structure invariant of both postprocessing variants.  For the
region-proposal variant (raw arrays of matching lengths), the call succeeds and
returns exactly the raw detections whose score is strictly greater than
conf_threshold — score, uint32 class, rescaled box and mask all taken at the same
raw index — so the four returned sequences have equal length; for the
prototype-mask variant (well-shaped inputs), whenever the call returns a
quadruple, its four sequences likewise have equal length. -/
theorem postprocess_parallel_invariant (cv2resize : List (List ℚ) → ℕ → ℕ → List (List ℚ))
    (o : MaskRcnnOutputs) (scale_x scale_y : ℚ)
    (frame_height frame_width input_height input_width : ℕ) (conf_threshold : ℚ)
    (hc : o.classes.length = o.scores.length)
    (hb : o.boxes.length = o.scores.length)
    (hr : o.raw_masks.length = o.scores.length)
    (npExp : ℚ → ℚ) (boxes : List Box4) (masks : List (List ℚ)) (score : List ℚ)
    (classes : List ℕ) (proto : List (List (List ℚ))) (w h : ℕ)
    (score_threshold shift_x shift_y : ℚ) (H K : ℕ)
    (hK : 0 < K) (hH : 0 < H)
    (hbs : boxes.length = score.length) (hms : masks.length = score.length)
    (hcs : classes.length = score.length)
    (hmK : ∀ row ∈ masks, row.length = K)
    (hp1 : proto.length = H) (hp2 : ∀ row ∈ proto, row.length = H)
    (hp3 : ∀ row ∈ proto, ∀ inner ∈ row, inner.length = K) :
    ((mask_rcnn_postprocess cv2resize o scale_x scale_y frame_height frame_width
        input_height input_width conf_threshold).1 =
      some (
        ((List.range o.scores.length).filter fun i =>
            decide (o.scores.getD i 0 > conf_threshold)).map fun i => o.scores.getD i 0,
        ((List.range o.scores.length).filter fun i =>
            decide (o.scores.getD i 0 > conf_threshold)).map fun i =>
              npToUint32 (o.classes.getD i 0),
        ((List.range o.scores.length).filter fun i =>
            decide (o.scores.getD i 0 > conf_threshold)).map fun i =>
              Box4.mk ((o.boxes.getD i default).x1 / scale_x)
                ((o.boxes.getD i default).y1 / scale_y)
                ((o.boxes.getD i default).x2 / scale_x)
                ((o.boxes.getD i default).y2 / scale_y),
        ((List.range o.scores.length).filter fun i =>
            decide (o.scores.getD i 0 > conf_threshold)).map fun i =>
              segm_postprocess cv2resize
                (Box4.mk ((o.boxes.getD i default).x1 / scale_x)
                  ((o.boxes.getD i default).y1 / scale_y)
                  ((o.boxes.getD i default).x2 / scale_x)
                  ((o.boxes.getD i default).y2 / scale_y))
                ((o.raw_masks.getD i []).getD (npToUint32 (o.classes.getD i 0)) [])
                frame_height frame_width))
    ∧ (∀ rs rc rb rm, (mask_rcnn_postprocess cv2resize o scale_x scale_y frame_height
        frame_width input_height input_width conf_threshold).1 = some (rs, rc, rb, rm) →
        rs.length = rc.length ∧ rc.length = rb.length ∧ rb.length = rm.length)
    ∧ (∀ rb rs rc rm, yolact_segm_postprocess cv2resize npExp boxes masks score classes
        proto w h score_threshold shift_x shift_y = some (.quadruple rb rs rc rm) →
        rb.length = rs.length ∧ rs.length = rc.length ∧ rc.length = rm.length) := by
  have hspec := mask_rcnn_region_spec cv2resize o scale_x scale_y frame_height
    frame_width input_height input_width conf_threshold hc hb hr
  refine ⟨hspec, ?_, ?_⟩
  · intro rs rc rb rm heq
    rw [hspec] at heq
    simp only [Option.some.injEq, Prod.mk.injEq] at heq
    obtain ⟨h1, h2, h3, h4⟩ := heq
    subst h1
    subst h2
    subst h3
    subst h4
    refine ⟨?_, ?_, ?_⟩ <;> simp
  · intro rb rs rc rm heq
    simp only [yolact_segm_postprocess] at heq
    by_cases ht : score_threshold > 0
    · rw [if_pos ht] at heq
      set keep := score.map fun sc => decide (sc > score_threshold) with hkeep
      have h1 : npBoolIndex score keep = some (boolKeep score keep) :=
        npBoolIndex_some _ _ (by rw [hkeep]; simp)
      have h2 : npBoolIndex boxes keep = some (boolKeep boxes keep) :=
        npBoolIndex_some _ _ (by rw [hkeep]; simp [hbs])
      have h3 : npBoolIndex masks keep = some (boolKeep masks keep) :=
        npBoolIndex_some _ _ (by rw [hkeep]; simp [hms])
      have h4 : npBoolIndex classes keep = some (boolKeep classes keep) :=
        npBoolIndex_some _ _ (by rw [hkeep]; simp [hcs])
      rw [h1] at heq
      simp only [Option.bind] at heq
      rw [h2] at heq
      simp only [Option.bind] at heq
      rw [h3] at heq
      simp only [Option.bind] at heq
      rw [h4] at heq
      simp only [Option.bind] at heq
      by_cases hz : (boolKeep score keep).length = 0
      · rw [if_pos hz] at heq
        exact YolactSegmResult.noConfusion (Option.some.inj heq)
      · rw [if_neg hz] at heq
        exact yolact_segm_core_lengths cv2resize npExp _ _ _ _ proto w h shift_x shift_y
          H K hK hH
          (boolKeep_length_congr keep boxes score hbs)
          (boolKeep_length_congr keep masks score hms)
          (boolKeep_length_congr keep classes score hcs)
          (fun row hrw => hmK row (mem_boolKeep hrw))
          hp1 hp2 hp3 rb rs rc rm heq
    · rw [if_neg ht] at heq
      exact yolact_segm_core_lengths cv2resize npExp boxes masks score classes proto
        w h shift_x shift_y H K hK hH hbs hms hcs hmK hp1 hp2 hp3 rb rs rc rm heq

/-- Witness for the parallel-structure invariant: all hypotheses hold at a concrete
input (empty raw region-proposal outputs, a one-detection prototype input), and the
region-proposal branch evaluates to four empty sequences. -/
theorem postprocess_parallel_invariant_witness :
    (mask_rcnn_postprocess (fun m _ _ => m) ⟨[], [], [], []⟩ 1 1 4 4 4 4 (1/2)).1 =
      some ([], [], [], []) := by
  have h := (postprocess_parallel_invariant (fun m _ _ => m) ⟨[], [], [], []⟩ 1 1 4 4 4 4
    (1/2) rfl rfl rfl (fun q => q) [⟨0, 0, 1, 1⟩] [[1]] [1] [1] [[[1]]] 4 4 1 0 0 1 1
    (by norm_num) (by norm_num) rfl rfl rfl (by simp) rfl (by simp) (by simp)).1
  simpa using h
